import Mathlib

/-! TN901 infrared thermometer driver (`src/TN901.h`)

A shallow embedding of the `TN901` class: the frame validator / temperature
decoder `updateTemperature`, the channel getters, the blocking reader `read`,
the interrupt-driven reader `processIsr`, and `startConversion` /
`endConversion`.

Modelling conventions

* `uint8_t` values are natural numbers; every place where the C code truncates
  to eight bits (`<<=` on a `uint8_t`, `++_idx`) carries an explicit `% 256`.
  `time_t` is the `uint32_t` of the AVR typedef, so the subtraction of two
  timestamps is taken modulo `2 ^ 32`.
* The two `float` caches hold rational numbers: the expression
  `((_data[1] * 256.0 + _data[2]) / 16.0) - 273.15` is read with exact
  arithmetic, the rounding of the C floating point types is not modelled.
* `digitalRead(_dataPin)` is an input of the model: the blocking reader takes
  the samples from a stream `bus : Nat → Bool` (sample `n` is the level of the
  data line at the `n`-th falling clock edge; the spin-waits on the clock pin
  are the passage from one sample to the next), the interrupt handler takes
  the sample and the two `millis()` readings of one invocation as an `Edge`.
* `digitalWrite(_ackPin, ·)` is an output of the model: a list of written levels.
* `digitalPinToInterrupt` and `NOT_AN_INTERRUPT` belong to the Arduino core of
  the board, not to this library: they are parameters (`Board`), and the calls
  `attachInterrupt`, `detachInterrupt`, `digitalWrite` of `startConversion` and
  `endConversion` are outputs (`HwCall`).
-/

namespace TN901

/-! ## Constants -/

/-- The frame timeout in milliseconds, `#define TN901_FRAME_TIMEOUT 25`. -/
def TN901_FRAME_TIMEOUT : Nat := 25

/-- Address byte of the Object channel, `#define TN901_OTADDRESS 0x4c`. -/
def TN901_OTADDRESS : Nat := 0x4c

/-- Address byte of the Environment channel, `#define TN901_ETADDRESS 0x66`. -/
def TN901_ETADDRESS : Nat := 0x66

/-- Terminator byte of a frame, `#define TN901_ENDADDRESS 0x0d`. -/
def TN901_ENDADDRESS : Nat := 0x0d

/-- Channel mask bit of the Object channel, `#define MODE_OT 0x01`. -/
def MODE_OT : Nat := 0x01

/-- Channel mask bit of the Environment channel, `#define MODE_ET 0x02`. -/
def MODE_ET : Nat := 0x02

/-! ## Data model -/

/-- The frame buffer `uint8_t _data[5]`. -/
structure Frame where
  b0 : Nat
  b1 : Nat
  b2 : Nat
  b3 : Nat
  b4 : Nat
  deriving DecidableEq, Repr

/-- The array read `_data[n]`; an index outside `0..4` is outside the object
and reads as `0` here. -/
def Frame.get (f : Frame) (n : Nat) : Nat :=
  match n with
  | 0 => f.b0
  | 1 => f.b1
  | 2 => f.b2
  | 3 => f.b3
  | 4 => f.b4
  | _ => 0

/-- The array write `_data[n] = v`; an index outside `0..4` is outside the
object and leaves the buffer as it is here. -/
def Frame.set (f : Frame) (n : Nat) (v : Nat) : Frame :=
  match n with
  | 0 => { f with b0 := v }
  | 1 => { f with b1 := v }
  | 2 => { f with b2 := v }
  | 3 => { f with b3 := v }
  | 4 => { f with b4 := v }
  | _ => f

/-- The member variables of `class TN901`. -/
structure State where
  dataPin : Nat
  clkPin : Nat
  ackPin : Nat
  tempEnvironment : ℚ
  tempObject : ℚ
  data : Frame
  idx : Nat
  conversionStartMillis : Nat
  environmentUpdated : Bool
  objectUpdated : Bool
  deriving DecidableEq

/-- Every member holds a value of its C type: bytes below `256`, the
timestamp below `2 ^ 32`. -/
def State.WellTyped (s : State) : Prop :=
  s.dataPin < 256 ∧ s.clkPin < 256 ∧ s.ackPin < 256 ∧
  s.data.b0 < 256 ∧ s.data.b1 < 256 ∧ s.data.b2 < 256 ∧ s.data.b3 < 256 ∧ s.data.b4 < 256 ∧
  s.idx < 256 ∧ s.conversionStartMillis < 2 ^ 32

instance (s : State) : Decidable s.WellTyped := by
  unfold State.WellTyped; infer_instance

/-! ## Frame validator and temperature decoder -/

/-- The subexpression `_data[1] * 256.0 + _data[2]` of `updateTemperature`. -/
def rawValue (f : Frame) : ℚ :=
  (f.get 1 : ℚ) * 256 + (f.get 2 : ℚ)

/-- The right-hand side of the two assignments in `updateTemperature`:
`((_data[1] * 256.0 + _data[2]) / 16.0) - 273.15`. -/
def decodeTemperature (f : Frame) : ℚ :=
  ((rawValue f) / 16) - 273.15

/-- Member `uint8_t updateTemperature() const` (the `TN901_DEBUG` printing left out):
the returned channel mask and the state after the call. -/
def updateTemperature (s : State) : Nat × State :=
  if s.data.get 4 = TN901_ENDADDRESS ∧
      (s.data.get 0 + s.data.get 1 + s.data.get 2) &&& 0xff = s.data.get 3 then
    if s.data.get 0 = TN901_OTADDRESS then
      (MODE_OT, { s with tempObject := decodeTemperature s.data, objectUpdated := true })
    else if s.data.get 0 = TN901_ETADDRESS then
      (MODE_ET, { s with tempEnvironment := decodeTemperature s.data, environmentUpdated := true })
    else
      (0x00, s)
  else
    (0x00, s)

/-! ## Channel getters -/

/-- Member `float getObjectTemperature() const`: the returned value and the state
after the call. -/
def getObjectTemperature (s : State) : ℚ × State :=
  (s.tempObject, { s with objectUpdated := false })

/-- Member `float getEnvironmentTemperature() const`: the returned value and the
state after the call. -/
def getEnvironmentTemperature (s : State) : ℚ × State :=
  (s.tempEnvironment, { s with environmentUpdated := false })

/-- Member `bool isEnvironmentTemperatureUpdated() const`: the returned flag
and the state after the call. -/
def isEnvironmentTemperatureUpdated (s : State) : Bool × State :=
  (s.environmentUpdated, s)

/-- Member `bool isObjectTemperatureUpdated() const`: the returned flag and
the state after the call. -/
def isObjectTemperatureUpdated (s : State) : Bool × State :=
  (s.objectUpdated, s)

/-! ## Blocking reader -/

/-- The two statements `_data[j] <<= 1; _data[j] |= (digitalRead(_dataPin) == HIGH) ? 0x01 : 0x00;`
on one `uint8_t` cell: the old value `x` and the sampled level `bit` give the
new value. -/
def shiftIn (x : Nat) (bit : Bool) : Nat :=
  ((x <<< 1) % 256) ||| (if bit then 0x01 else 0x00)

/-- The loop `for (i = 0; i < 8; ++i)` of `read`: eight samples are shifted
into `_data[j]`. The second component counts the samples taken from the bus. -/
def readByte (bus : Nat → Bool) (j : Nat) (sp : State × Nat) : State × Nat :=
  (List.range 8).foldl
    (fun sp _ =>
      ({ sp.1 with data := sp.1.data.set j (shiftIn (sp.1.data.get j) (bus sp.2)) }, sp.2 + 1))
    sp

/-- The loop `for (j = 0; j < 5; ++j)` of `read`: one frame attempt. -/
def readFrame (bus : Nat → Bool) (sp : State × Nat) : State × Nat :=
  (List.range 5).foldl (fun sp j => readByte bus j sp) sp

/-- What the loop `for (k = 0; k < 10; ++k)` of `read` leaves behind. -/
structure LoopResult where
  /-- the loop counter `k` on exit -/
  k : Nat
  /-- the running mask `flag` on exit -/
  flag : Nat
  /-- the object after the loop -/
  state : State
  /-- the number of samples taken from the bus so far -/
  samples : Nat
  deriving DecidableEq

/-- The loop `for (k = 0; k < 10; ++k)` of `read`, entered with `fuel = 10 - k`
iterations left: sample a frame, decode it, leave by `break` once
`(mode & flag) == mode`. -/
def readLoop (bus : Nat → Bool) (mode : Nat) :
    (fuel : Nat) → (k : Nat) → (flag : Nat) → State × Nat → LoopResult
  | 0, k, flag, sp => { k := k, flag := flag, state := sp.1, samples := sp.2 }
  | fuel + 1, k, flag, sp =>
    let sp1 := readFrame bus sp
    let r := updateTemperature sp1.1
    let flag1 := flag ||| r.1
    if mode &&& flag1 = mode then
      { k := k, flag := flag1, state := r.2, samples := sp1.2 }
    else
      readLoop bus mode fuel (k + 1) flag1 (r.2, sp1.2)

/-- What a call of `read` does: the object afterwards, the samples it took
from the bus and the levels it wrote to the acknowledge pin, in order
(`false` is `LOW`, `true` is `HIGH`). -/
structure ReadResult where
  state : State
  /-- the loop counter `k` after the loop -/
  k : Nat
  /-- the number of samples taken from the bus -/
  samples : Nat
  /-- the levels written by `digitalWrite(_ackPin, ·)` -/
  ack : List Bool
  deriving DecidableEq

/-- Member `void read(uint8_t mode) const`. -/
def read (s : State) (mode : Nat) (bus : Nat → Bool) : ReadResult :=
  let mode := mode &&& (MODE_ET ||| MODE_OT)
  let flag := 0x00
  let ack := [false]
  let r := readLoop bus mode 10 0 flag (s, 0)
  let ack := ack ++ [true]
  { state := r.state, k := r.k, samples := r.samples, ack := ack }

/-- The number of frame attempts of a call of `read`: each attempt takes
forty samples from the bus. -/
def ReadResult.attempts (r : ReadResult) : Nat := r.samples / 40

/-! ## Interrupt-driven reader -/

/-- The inputs of one invocation of `processIsr`: the value of `millis()` in
the first statement, the value of `millis()` inside the reset branch, and the
level of the data pin (`true` is `HIGH`). -/
structure Edge where
  now : Nat
  nowReset : Nat
  bit : Bool
  deriving DecidableEq, Repr

/-- The subtraction `millis() - _conversionStartMillis` in `uint32_t`. -/
def elapsed (now start : Nat) : Nat :=
  (now % 2 ^ 32 + 2 ^ 32 - start % 2 ^ 32) % 2 ^ 32

/-- Member `void processIsr() const`. The first component says whether
`updateTemperature` was called in this invocation and what it returned. -/
def processIsr (s : State) (e : Edge) : Option Nat × State :=
  let timeoutMillis := elapsed e.now s.conversionStartMillis
  let s1 : State :=
    if s.idx ≥ 40 ∨ timeoutMillis > TN901_FRAME_TIMEOUT then
      { s with idx := 0, conversionStartMillis := e.nowReset, data := ⟨0x00, 0x00, 0x00, 0x00, 0x00⟩ }
    else s
  let nByte := s1.idx / 8
  let s2 : State := { s1 with data := s1.data.set nByte (shiftIn (s1.data.get nByte) e.bit) }
  let s3 : State := { s2 with idx := (s2.idx + 1) % 256 }
  if s3.idx ≥ 40 then
    let r := updateTemperature s3
    (some r.1, r.2)
  else
    (none, s3)

/-- A run of the interrupt handler: one invocation of `processIsr` per edge,
in order. The first component lists, per invocation, the decoder call. -/
def runIsr : State → List Edge → List (Option Nat) × State
  | s, [] => ([], s)
  | s, e :: es =>
    let r := processIsr s e
    let rest := runIsr r.2 es
    (r.1 :: rest.1, rest.2)

/-! ## Vocabulary of the specification -/

/-- The value of a bit string read most significant bit first. -/
def packBits (bits : List Bool) : Nat :=
  bits.foldl (fun acc b => 2 * acc + (if b then 1 else 0)) 0

/-- The eight samples `pos, …, pos + 7` of the bus. -/
def busBits (bus : Nat → Bool) (pos : Nat) : List Bool :=
  (List.range 8).map (fun t => bus (pos + t))

/-- The forty samples starting at `pos`, packed most significant bit first,
byte `j` holding the samples `pos + 8 j, …, pos + 8 j + 7`. -/
def busFrameAt (bus : Nat → Bool) (pos : Nat) : Frame :=
  ⟨packBits (busBits bus pos), packBits (busBits bus (pos + 8)),
   packBits (busBits bus (pos + 16)), packBits (busBits bus (pos + 24)),
   packBits (busBits bus (pos + 32))⟩

/-- The `i`-th frame on the bus, frames counted from `0`. -/
def busFrame (bus : Nat → Bool) (i : Nat) : Frame := busFrameAt bus (40 * i)

/-- A frame is a valid frame of the channel with address byte `addr`:
terminator and checksum are right and byte 0 is `addr`. -/
def ValidFor (addr : Nat) (f : Frame) : Prop :=
  f.b4 = 0x0d ∧ (f.b0 + f.b1 + f.b2) % 256 = f.b3 ∧ f.b0 = addr

instance (addr : Nat) (f : Frame) : Decidable (ValidFor addr f) := by
  unfold ValidFor; infer_instance

/-- A valid frame of the channel with address byte `addr` is among the first
`k` frames on the bus. -/
def Obtained (bus : Nat → Bool) (addr : Nat) (k : Nat) : Prop :=
  ∃ i, i < k ∧ ValidFor addr (busFrame bus i)

instance (bus : Nat → Bool) (addr k : Nat) : Decidable (Obtained bus addr k) := by
  unfold Obtained; infer_instance

/-- Every channel requested by `mask & 0x03` has been obtained by a valid frame
among the first `k` frames on the bus. -/
def Satisfied (bus : Nat → Bool) (mask : Nat) (k : Nat) : Prop :=
  (mask &&& 0x01 ≠ 0 → Obtained bus 0x4c k) ∧ (mask &&& 0x02 ≠ 0 → Obtained bus 0x66 k)

instance (bus : Nat → Bool) (mask k : Nat) : Decidable (Satisfied bus mask k) := by
  unfold Satisfied; infer_instance

/-- The decoder applied to a buffer holding the frame `f`: the object after
`updateTemperature`. -/
def decodeFrame (s : State) (f : Frame) : State :=
  (updateTemperature { s with data := f }).2

/-- The object after the decoder has seen the first `n` frames on the bus. -/
def decodeFrames (bus : Nat → Bool) (s : State) : Nat → State
  | 0 => s
  | n + 1 => decodeFrame (decodeFrames bus s n) (busFrame bus n)

/-- The running mask `flag` of `read` agrees with the frames seen so far: bit 0
is set exactly if a valid Object frame is among the first `i` frames, bit 1
exactly if a valid Environment frame is, and no other bit is set. -/
def FlagInv (bus : Nat → Bool) (flag i : Nat) : Prop :=
  flag < 4 ∧ (flag &&& 0x01 ≠ 0 ↔ Obtained bus 0x4c i) ∧ (flag &&& 0x02 ≠ 0 ↔ Obtained bus 0x66 i)

/-- The two measurement channels. -/
inductive Channel where
  | object
  | environment
  deriving DecidableEq, Repr

/-- The address byte of a channel: `TN901_OTADDRESS` or `TN901_ETADDRESS`. -/
def Channel.addr : Channel → Nat
  | .object => 0x4c
  | .environment => 0x66

/-- The mask bit of a channel: `MODE_OT` or `MODE_ET`. -/
def Channel.bit : Channel → Nat
  | .object => 0x01
  | .environment => 0x02

/-- The cached temperature of a channel: `_tempObject` or `_tempEnvironment`. -/
def State.temp (s : State) : Channel → ℚ
  | .object => s.tempObject
  | .environment => s.tempEnvironment

/-- The flag of a channel: `_objectUpdated` or `_environmentUpdated`. -/
def State.updated (s : State) : Channel → Bool
  | .object => s.objectUpdated
  | .environment => s.environmentUpdated

/-- The buffer after the samples `bits` have been shifted in by successive
invocations of `processIsr` without a reset, the first one at bit-index `n`. -/
def shiftBits (d : Frame) (n : Nat) : List Bool → Frame
  | [] => d
  | b :: bs => shiftBits (d.set (n / 8) (shiftIn (d.get (n / 8)) b)) (n + 1) bs

/-- The bits of a byte, most significant bit first. -/
def byteBits (x : Nat) : List Bool :=
  [x.testBit 7, x.testBit 6, x.testBit 5, x.testBit 4,
   x.testBit 3, x.testBit 2, x.testBit 1, x.testBit 0]

/-- The forty bits of the frame `(a, b, c, d, e)` in transmission order:
byte 0 first, each byte most significant bit first. -/
def frameBits (a b c d e : Nat) : List Bool :=
  byteBits a ++ byteBits b ++ byteBits c ++ byteBits d ++ byteBits e

/-! ## Concrete inputs -/

/-- A state with pins 2, 3, 4, both caches `0`, both flags down, bit-index
and timestamp `0`, and the buffer as given. -/
def stateWith (f : Frame) : State :=
  { dataPin := 2, clkPin := 3, ackPin := 4, tempEnvironment := 0, tempObject := 0,
    data := f, idx := 0, conversionStartMillis := 0,
    environmentUpdated := false, objectUpdated := false }

/-- A state whose Object flag is still up from an earlier decode. -/
def staleFlagState : State :=
  { stateWith ⟨0, 0, 0, 0, 0⟩ with tempObject := 18.1, objectUpdated := true }

/-- The bits of the valid Object frame `(0x4c, 0x12, 0x34, 0x92, 0x0d)`. -/
def objectFrameBits : List Bool := frameBits 0x4c 0x12 0x34 0x92 0x0d

/-- The bits of the valid Environment frame `(0x66, 0x12, 0x34, 0xac, 0x0d)`. -/
def environmentFrameBits : List Bool := frameBits 0x66 0x12 0x34 0xac 0x0d

/-- A bus that alternates the valid Object frame and the valid Environment
frame, the Object frame first. -/
def alternatingBus : Nat → Bool := fun n =>
  if (n / 40) % 2 = 0 then objectFrameBits.getD (n % 40) false
  else environmentFrameBits.getD (n % 40) false

/-- A bus that repeats the valid Object frame. -/
def objectOnlyBus : Nat → Bool := fun n => objectFrameBits.getD (n % 40) false

/-- A bus whose data line stays low. -/
def silentBus : Nat → Bool := fun _ => false

/-- Forty clock edges carrying the valid Object frame, all at time `5`. -/
def objectEdges : List Edge := objectFrameBits.map (fun b => ⟨5, 5, b⟩)

/-- Forty clock edges carrying the valid Environment frame, all at time `5`. -/
def environmentEdges : List Edge := environmentFrameBits.map (fun b => ⟨5, 5, b⟩)

/-- A state in the middle of a frame: bit-index `17`, a buffer in use, start
timestamp `0`. -/
def midFrameState : State :=
  { stateWith ⟨0x4c, 0x12, 0x01, 0, 0⟩ with idx := 17 }

/-- A state left behind by earlier activity: bit-index `13` and the start
timestamp `1000`, set by the last reset of `processIsr`. -/
def priorState : State :=
  { stateWith ⟨0x4c, 0x12, 0, 0, 0⟩ with idx := 13, conversionStartMillis := 1000 }

/-- Forty clock edges carrying the valid Object frame, the first at time `1010`,
two edges per millisecond, so the last one at time `1029`. -/
def spreadEdges : List Edge :=
  (List.range 40).map (fun i => ⟨1010 + i / 2, 1010 + i / 2, objectFrameBits.getD i false⟩)

/-! ## Starting and ending a conversion -/

/-- The conversion of an `int` value to `int8_t`. -/
def toInt8 (v : Int) : Int := (v + 128) % 256 - 128

/-- What the Arduino core of the board supplies to `startConversion` and
`endConversion`: the macro `digitalPinToInterrupt` and the constant
`NOT_AN_INTERRUPT`. -/
structure Board where
  digitalPinToInterrupt : Nat → Int
  NOT_AN_INTERRUPT : Int

/-- The trigger modes of `attachInterrupt`. -/
inductive TriggerMode where
  | CHANGE
  | RISING
  | FALLING
  deriving DecidableEq, Repr

/-- The calls into the Arduino core made by `startConversion` and
`endConversion` (`level = false` is `LOW`, `level = true` is `HIGH`; the
callback `void (*isrFunc)()` is named by a number). -/
inductive HwCall where
  | attachInterrupt (interrupt : Int) (isrFunc : Nat) (mode : TriggerMode)
  | detachInterrupt (interrupt : Int)
  | digitalWrite (pin : Nat) (level : Bool)
  deriving DecidableEq, Repr

/-- Member `bool startConversion(void (*isrFunc)())`: the returned value, the
state after the call and the calls into the Arduino core, in order. -/
def startConversion (p : Board) (s : State) (isrFunc : Nat) : Bool × State × List HwCall :=
  let interrupt := toInt8 (p.digitalPinToInterrupt s.clkPin)
  if interrupt = p.NOT_AN_INTERRUPT then
    (false, s, [])
  else
    let s1 : State := { s with idx := 0 }
    (true, s1, [HwCall.attachInterrupt interrupt isrFunc TriggerMode.FALLING,
                HwCall.digitalWrite s1.ackPin false])

/-- Member `void endConversion()`: the state after the call and the calls into
the Arduino core, in order. -/
def endConversion (p : Board) (s : State) : State × List HwCall :=
  let interrupt := toInt8 (p.digitalPinToInterrupt s.clkPin)
  if interrupt = p.NOT_AN_INTERRUPT then
    (s, [])
  else
    (s, [HwCall.digitalWrite s.ackPin true, HwCall.detachInterrupt interrupt])

/-- The interrupt numbers of an Arduino Uno: pin 2 has interrupt 0, pin 3 has
interrupt 1, no other pin has one; `NOT_AN_INTERRUPT` is `-1`. -/
def unoBoard : Board :=
  { digitalPinToInterrupt := fun pin => if pin = 2 then 0 else if pin = 3 then 1 else -1,
    NOT_AN_INTERRUPT := -1 }

/-- The first statements of `processIsr`, up to the end of the reset branch:
the object at the point where the sample is shifted in. -/
def isrReset (s : State) (e : Edge) : State :=
  if s.idx ≥ 40 ∨ elapsed e.now s.conversionStartMillis > TN901_FRAME_TIMEOUT then
    { s with idx := 0, conversionStartMillis := e.nowReset, data := ⟨0x00, 0x00, 0x00, 0x00, 0x00⟩ }
  else s

/-- Forty bits packed into a frame, most significant bit first, byte `j`
holding the bits `8 j, …, 8 j + 7`. -/
def packFrame (bits : List Bool) : Frame :=
  ⟨packBits (bits.take 8), packBits ((bits.drop 8).take 8), packBits ((bits.drop 16).take 8),
   packBits ((bits.drop 24).take 8), packBits ((bits.drop 32).take 8)⟩

/-- No timeout elapses in a run of `processIsr`: every invocation that finds a
frame in progress (bit-index below `40`) comes at most `TN901_FRAME_TIMEOUT`
milliseconds after the start timestamp it finds. -/
def noTimeout : State → List Edge → Bool
  | _, [] => true
  | s, e :: es =>
    (decide (s.idx < 40 → elapsed e.now s.conversionStartMillis ≤ TN901_FRAME_TIMEOUT)) &&
      noTimeout (processIsr s e).2 es

/-- The value `0x01` or `0x00` or-ed into the buffer for a sampled level. -/
def bitValue (b : Bool) : Nat := if b then 0x01 else 0x00

/-! ## The blocking reader with its pin events -/

/-- The pin events of `read`, in program order: a write to the acknowledge pin
(`false` is `LOW`, `true` is `HIGH`), or the `digitalRead(_dataPin)` that takes
sample number `sample` from the bus. -/
inductive IoEvent where
  | ackWrite (level : Bool)
  | dataRead (sample : Nat)
  deriving DecidableEq, Repr

/-- The loop `for (i = 0; i < 8; ++i)` of `read` as in `readByte`, with the log
of pin events as a third component. -/
def readByteIo (bus : Nat → Bool) (j : Nat) (x : (State × Nat) × List IoEvent) :
    (State × Nat) × List IoEvent :=
  (List.range 8).foldl
    (fun x _ =>
      (({ x.1.1 with data := x.1.1.data.set j (shiftIn (x.1.1.data.get j) (bus x.1.2)) },
        x.1.2 + 1), x.2 ++ [IoEvent.dataRead x.1.2]))
    x

/-- The loop `for (j = 0; j < 5; ++j)` of `read` as in `readFrame`, with the
log of pin events. -/
def readFrameIo (bus : Nat → Bool) (x : (State × Nat) × List IoEvent) :
    (State × Nat) × List IoEvent :=
  (List.range 5).foldl (fun x j => readByteIo bus j x) x

/-- The loop `for (k = 0; k < 10; ++k)` of `read` as in `readLoop`, with the
log of pin events. -/
def readLoopIo (bus : Nat → Bool) (mode : Nat) :
    (fuel : Nat) → (k : Nat) → (flag : Nat) → (State × Nat) × List IoEvent →
      LoopResult × List IoEvent
  | 0, k, flag, x => ({ k := k, flag := flag, state := x.1.1, samples := x.1.2 }, x.2)
  | fuel + 1, k, flag, x =>
    let x1 := readFrameIo bus x
    let r := updateTemperature x1.1.1
    let flag1 := flag ||| r.1
    if mode &&& flag1 = mode then
      ({ k := k, flag := flag1, state := r.2, samples := x1.1.2 }, x1.2)
    else
      readLoopIo bus mode fuel (k + 1) flag1 ((r.2, x1.1.2), x1.2)

/-- Member `void read(uint8_t mode) const` as in `read`, with the log of pin
events: the writes to the acknowledge pin and the reads of the data pin in the
order in which the statements run. -/
def readIo (s : State) (mode : Nat) (bus : Nat → Bool) : ReadResult × List IoEvent :=
  let mode := mode &&& (MODE_ET ||| MODE_OT)
  let flag := 0x00
  let ack := [false]
  let log := [IoEvent.ackWrite false]
  let r := readLoopIo bus mode 10 0 flag ((s, 0), log)
  let ack := ack ++ [true]
  let log := r.2 ++ [IoEvent.ackWrite true]
  ({ state := r.1.state, k := r.1.k, samples := r.1.samples, ack := ack }, log)

/-- The events `dataRead pos, …, dataRead (pos + n - 1)`. -/
def dataReads (pos n : Nat) : List IoEvent :=
  (List.range n).map (fun t => IoEvent.dataRead (pos + t))

/-! ## Invariants of the interrupt-driven reader -/

/-- The buffer holds the most recent samples: the bit-index is at most `40` and
at most the number of samples taken so far, and the buffer is what shifting the
last `idx` samples in, from bit-index `0`, makes of some earlier buffer. -/
def Fresh (s : State) (bits : List Bool) : Prop :=
  s.idx ≤ 40 ∧ s.idx ≤ bits.length ∧
    ∃ d0, s.data = shiftBits d0 0 (bits.drop (bits.length - s.idx))

/-- The bit-index after `k` invocations of `processIsr` without a timeout,
starting from bit-index `0`. -/
def idxAfter (k : Nat) : Nat := if k = 0 then 0 else (k - 1) % 40 + 1

/-- Eighty clock edges carrying the valid Object frame and then the valid
Environment frame, all at time `5`. -/
def twoFrameEdges : List Edge := objectEdges ++ environmentEdges

/-! ## Arithmetic of the byte cells -/

theorem land_ff (x : Nat) : x &&& 0xff = x % 256 :=
  Nat.and_pow_two_sub_one_eq_mod x 8

theorem lor_one_of_even_lt : ∀ k, k < 128 → (2 * k) ||| 1 = 2 * k + 1 := by
  decide

theorem shiftIn_eq (x : Nat) (b : Bool) :
    shiftIn x b = (2 * x + (if b then 1 else 0)) % 256 := by
  unfold shiftIn
  rw [Nat.shiftLeft_eq]
  have h : x * 2 ^ 1 % 256 = 2 * (x % 128) := by omega
  rw [h]
  cases b
  · simp; omega
  · simp only [if_true]
    rw [lor_one_of_even_lt _ (Nat.mod_lt _ (by decide))]
    omega

theorem shiftIn_lt (x : Nat) (b : Bool) : shiftIn x b < 256 := by
  rw [shiftIn_eq]; exact Nat.mod_lt _ (by decide)

theorem foldl_pack (bits : List Bool) (x : Nat) :
    bits.foldl (fun acc b => 2 * acc + (if b then 1 else 0)) x
      = x * 2 ^ bits.length + packBits bits := by
  unfold packBits
  induction bits generalizing x with
  | nil => simp
  | cons b bs ih =>
    simp only [List.foldl_cons, List.length_cons]
    rw [ih, ih (2 * 0 + _)]
    ring

theorem packBits_cons (b : Bool) (bs : List Bool) :
    packBits (b :: bs) = (if b then 1 else 0) * 2 ^ bs.length + packBits bs := by
  have h := foldl_pack bs (2 * 0 + (if b then 1 else 0))
  simpa [packBits] using h

theorem packBits_lt (bits : List Bool) : packBits bits < 2 ^ bits.length := by
  induction bits with
  | nil => simp [packBits]
  | cons b bs ih =>
    rw [packBits_cons, List.length_cons, pow_succ]
    cases b <;> simp <;> omega

theorem foldl_shiftIn_mod (bits : List Bool) (x : Nat) :
    bits.foldl shiftIn x % 256 = (x * 2 ^ bits.length + packBits bits) % 256 := by
  induction bits generalizing x with
  | nil => simp [packBits]
  | cons b bs ih =>
    rw [List.foldl_cons, ih, shiftIn_eq, packBits_cons, List.length_cons]
    have h : ((2 * x + if b = true then 1 else 0) % 256 * 2 ^ bs.length + packBits bs)
        ≡ ((2 * x + if b = true then 1 else 0) * 2 ^ bs.length + packBits bs) [MOD 256] :=
      Nat.ModEq.add_right _ (Nat.ModEq.mul_right _ (Nat.mod_modEq _ _))
    rw [h]
    congr 1
    ring

theorem foldl_shiftIn_lt (bits : List Bool) (x : Nat) (h : bits ≠ []) :
    bits.foldl shiftIn x < 256 := by
  induction bits generalizing x with
  | nil => exact absurd rfl h
  | cons b bs ih =>
    rw [List.foldl_cons]
    by_cases hbs : bs = []
    · subst hbs; exact shiftIn_lt x b
    · exact ih _ hbs

/-- Eight shifts flush the old contents of a cell: what remains is the value
of the eight samples. -/
theorem foldl_shiftIn_eight (bits : List Bool) (x : Nat) (h : bits.length = 8) :
    bits.foldl shiftIn x = packBits bits := by
  have hne : bits ≠ [] := by intro h0; simp [h0] at h
  have h1 := foldl_shiftIn_mod bits x
  have h2 := foldl_shiftIn_lt bits x hne
  have h3 := packBits_lt bits
  rw [h] at h1 h3
  rw [Nat.mod_eq_of_lt h2] at h1
  rw [h1]
  omega

set_option maxRecDepth 100000 in
theorem packBits_byteBits : ∀ a, a < 256 → packBits (byteBits a) = a := by
  decide

theorem Frame.get_set (f : Frame) (j v : Nat) (hj : j < 5) : (f.set j v).get j = v := by
  interval_cases j <;> rfl

theorem Frame.set_set (f : Frame) (j v w : Nat) : (f.set j v).set j w = f.set j w := by
  rcases j with _ | _ | _ | _ | _ | j <;> rfl

theorem Frame.set_get (f : Frame) (j : Nat) : f.set j (f.get j) = f := by
  rcases j with _ | _ | _ | _ | _ | j <;> rfl

/-! ## The decoder -/

theorem not_valid_both (f : Frame) : ¬ (ValidFor 0x4c f ∧ ValidFor 0x66 f) := by
  rintro ⟨h1, h2⟩
  have := h1.2.2
  have := h2.2.2
  omega

theorem updateTemperature_eq (s : State) :
    updateTemperature s =
      if ValidFor 0x4c s.data then
        (0x01, { s with tempObject := decodeTemperature s.data, objectUpdated := true })
      else if ValidFor 0x66 s.data then
        (0x02, { s with tempEnvironment := decodeTemperature s.data, environmentUpdated := true })
      else (0x00, s) := by
  simp only [updateTemperature, ValidFor, Frame.get, land_ff, TN901_ENDADDRESS, TN901_OTADDRESS,
    TN901_ETADDRESS, MODE_OT, MODE_ET]
  split_ifs <;> first | rfl | (exfalso; simp_all <;> omega)

theorem updateTemperature_fst (s : State) :
    (updateTemperature s).1 =
      if ValidFor 0x4c s.data then 0x01 else if ValidFor 0x66 s.data then 0x02 else 0x00 := by
  rw [updateTemperature_eq]
  split_ifs <;> rfl

theorem decodeFrame_updated (s : State) (f : Frame) (c : Channel) :
    (decodeFrame s f).updated c = (s.updated c || decide (ValidFor c.addr f)) := by
  have hnb := not_valid_both f
  cases c <;> simp only [decodeFrame, updateTemperature_eq, State.updated, Channel.addr] <;>
    split_ifs <;> simp_all

theorem decodeFrame_temp (s : State) (f : Frame) (c : Channel) :
    (decodeFrame s f).temp c = if ValidFor c.addr f then decodeTemperature f else s.temp c := by
  have hnb := not_valid_both f
  cases c <;> simp only [decodeFrame, updateTemperature_eq, State.temp, Channel.addr] <;>
    split_ifs <;> simp_all

theorem obtained_succ (bus : Nat → Bool) (a i : Nat) :
    Obtained bus a (i + 1) ↔ Obtained bus a i ∨ ValidFor a (busFrame bus i) := by
  unfold Obtained
  constructor
  · rintro ⟨t, ht, hv⟩
    rcases Nat.lt_succ_iff_lt_or_eq.mp ht with h | h
    · exact Or.inl ⟨t, h, hv⟩
    · subst h; exact Or.inr hv
  · rintro (⟨t, ht, hv⟩ | hv)
    · exact ⟨t, Nat.lt_succ_of_lt ht, hv⟩
    · exact ⟨i, Nat.lt_succ_self i, hv⟩

theorem obtained_mono (bus : Nat → Bool) (a : Nat) {i j : Nat} (hij : i ≤ j)
    (h : Obtained bus a i) : Obtained bus a j := by
  obtain ⟨t, ht, hv⟩ := h
  exact ⟨t, Nat.lt_of_lt_of_le ht hij, hv⟩

theorem decodeFrames_updated (bus : Nat → Bool) (s : State) (c : Channel) (n : Nat) :
    (decodeFrames bus s n).updated c = (s.updated c || decide (Obtained bus c.addr n)) := by
  induction n with
  | zero => simp [decodeFrames, Obtained]
  | succ n ih =>
    simp only [decodeFrames, decodeFrame_updated, ih, obtained_succ]
    by_cases h1 : Obtained bus c.addr n <;> by_cases h2 : ValidFor c.addr (busFrame bus n) <;>
      simp [h1, h2]

theorem decodeFrames_temp (bus : Nat → Bool) (s : State) (c : Channel) (n : Nat)
    (h : ¬ Obtained bus c.addr n) : (decodeFrames bus s n).temp c = s.temp c := by
  induction n with
  | zero => rfl
  | succ n ih =>
    rw [obtained_succ] at h
    simp only [decodeFrames, decodeFrame_temp]
    rw [if_neg (fun hv => h (Or.inr hv))]
    exact ih (fun ho => h (Or.inl ho))

/-! ## The blocking reader -/

theorem readByte_eq (bus : Nat → Bool) (j : Nat) (hj : j < 5) (s : State) (pos : Nat) :
    readByte bus j (s, pos)
      = ({ s with data := s.data.set j (packBits (busBits bus pos)) }, pos + 8) := by
  have h := foldl_shiftIn_eight (busBits bus pos) (s.data.get j) (by simp [busBits])
  rw [← h]
  simp [readByte, busBits, List.range, List.range.loop, Frame.get_set _ _ _ hj, Frame.set_set]

/-- One frame attempt of `read` overwrites the whole buffer with the forty
samples it takes, whatever the buffer held before. -/
theorem readFrame_eq (bus : Nat → Bool) (s : State) (pos : Nat) :
    readFrame bus (s, pos) = ({ s with data := busFrameAt bus pos }, pos + 40) := by
  simp [readFrame, List.range, List.range.loop, readByte_eq, Frame.set, busFrameAt]

theorem flag_bits : ∀ flag, flag < 4 → ∀ m, m < 3 →
    (flag ||| m) < 4 ∧ ((flag ||| m) &&& 1 ≠ 0 ↔ (flag &&& 1 ≠ 0 ∨ m = 1)) ∧
    ((flag ||| m) &&& 2 ≠ 0 ↔ (flag &&& 2 ≠ 0 ∨ m = 2)) := by
  decide

theorem mode_flag : ∀ mode, mode < 4 → ∀ flag, flag < 4 →
    (mode &&& flag = mode ↔
      ((mode &&& 1 ≠ 0 → flag &&& 1 ≠ 0) ∧ (mode &&& 2 ≠ 0 → flag &&& 2 ≠ 0))) := by
  decide

theorem flagInv_step (bus : Nat → Bool) (flag i : Nat) (s : State) (h : FlagInv bus flag i) :
    FlagInv bus (flag ||| (updateTemperature { s with data := busFrame bus i }).1) (i + 1) := by
  obtain ⟨h4, h1, h2⟩ := h
  rw [updateTemperature_fst]
  simp only [FlagInv, obtained_succ]
  have hnb := not_valid_both (busFrame bus i)
  split_ifs with ha hb
  · have hb : ¬ ValidFor 0x66 (busFrame bus i) := fun hb => hnb ⟨ha, hb⟩
    have := flag_bits flag h4 1 (by decide)
    simp only [← h1, ← h2]
    simp_all
  · have := flag_bits flag h4 2 (by decide)
    simp only [← h1, ← h2]
    simp_all
  · have := flag_bits flag h4 0 (by decide)
    simp only [← h1, ← h2]
    simp_all

theorem satisfied_iff (bus : Nat → Bool) (mode flag i : Nat) (hm : mode < 4)
    (h : FlagInv bus flag i) : (mode &&& flag = mode ↔ Satisfied bus mode i) := by
  obtain ⟨h4, h1, h2⟩ := h
  rw [mode_flag mode hm flag h4, Satisfied, h1, h2]

/-- The loop of `read`, entered after `i` frames with `fuel` iterations left,
stops after `n` frames in all: `n` is the first count above `i` at which the
request is satisfied, or `i + fuel`. -/
theorem readLoop_spec (bus : Nat → Bool) (mode : Nat) (hm : mode < 4) (s0 : State) :
    ∀ fuel k flag i, FlagInv bus flag i →
      ∃ n, i ≤ n ∧ n ≤ i + fuel ∧ (0 < fuel → i < n) ∧
        (readLoop bus mode fuel k flag (decodeFrames bus s0 i, 40 * i)).samples = 40 * n ∧
        (readLoop bus mode fuel k flag (decodeFrames bus s0 i, 40 * i)).state
          = decodeFrames bus s0 n ∧
        (n < i + fuel → Satisfied bus mode n) ∧
        (∀ t, i < t → t < n → ¬ Satisfied bus mode t) := by
  intro fuel
  induction fuel with
  | zero =>
    intro k flag i _
    exact ⟨i, le_refl _, le_refl _, fun h => absurd h (lt_irrefl _), rfl, rfl,
      fun h => absurd h (by omega), fun t h1 h2 => absurd h2 (by omega)⟩
  | succ fuel ih =>
    intro k flag i hinv
    have hstep := flagInv_step bus flag i (decodeFrames bus s0 i) hinv
    have hsat := satisfied_iff bus mode _ (i + 1) hm hstep
    simp only [readLoop, readFrame_eq]
    rw [show busFrameAt bus (40 * i) = busFrame bus i from rfl]
    split_ifs with hbreak
    · refine ⟨i + 1, by omega, by omega, fun _ => by omega, by simp; ring, rfl,
        fun _ => hsat.mp hbreak, fun t h1 h2 => absurd h2 (by omega)⟩
    · obtain ⟨n, h1, h2, h3, h4, h5, h6, h7⟩ := ih (k + 1) _ (i + 1) hstep
      rw [show 40 * i + 40 = 40 * (i + 1) by ring]
      rw [show (updateTemperature { decodeFrames bus s0 i with data := busFrame bus i }).2
          = decodeFrames bus s0 (i + 1) from rfl]
      refine ⟨n, by omega, by omega, fun _ => by omega, h4, h5, fun h => h6 (by omega), ?_⟩
      intro t ht1 ht2
      by_cases ht : t = i + 1
      · subst ht; exact fun hs => hbreak (hsat.mpr hs)
      · exact h7 t (by omega) ht2

theorem satisfied_mask (bus : Nat → Bool) (mask k : Nat) :
    Satisfied bus (mask &&& (MODE_ET ||| MODE_OT)) k ↔ Satisfied bus mask k := by
  have h1 : mask &&& (MODE_ET ||| MODE_OT) &&& 0x01 = mask &&& 0x01 := by
    rw [Nat.land_assoc]; rfl
  have h2 : mask &&& (MODE_ET ||| MODE_OT) &&& 0x02 = mask &&& 0x02 := by
    rw [Nat.land_assoc]; rfl
  simp only [Satisfied, h1, h2]

/-- What `read` does, in terms of the frames on the bus: it makes between one
and ten attempts, decodes every frame it samples, stops before the tenth
attempt only when the request is satisfied, and never goes on once it is. -/
theorem read_spec (s : State) (mask : Nat) (bus : Nat → Bool) :
    1 ≤ (read s mask bus).attempts ∧ (read s mask bus).attempts ≤ 10 ∧
    (read s mask bus).samples = 40 * (read s mask bus).attempts ∧
    (read s mask bus).state = decodeFrames bus s (read s mask bus).attempts ∧
    ((read s mask bus).attempts < 10 → Satisfied bus mask (read s mask bus).attempts) ∧
    (∀ t, 0 < t → t < (read s mask bus).attempts → ¬ Satisfied bus mask t) := by
  have hm : mask &&& (MODE_ET ||| MODE_OT) < 4 :=
    Nat.lt_of_le_of_lt Nat.and_le_right (by decide)
  have hinv : FlagInv bus 0 0 := by
    refine ⟨by decide, ?_, ?_⟩ <;> simp [Obtained]
  obtain ⟨n, h1, h2, h3, h4, h5, h6, h7⟩ :=
    readLoop_spec bus (mask &&& (MODE_ET ||| MODE_OT)) hm s 10 0 0 0 hinv
  have hs : (read s mask bus).samples = 40 * n := h4
  have hst : (read s mask bus).state = decodeFrames bus s n := h5
  have ha : (read s mask bus).attempts = n := by
    unfold ReadResult.attempts; rw [hs]; omega
  rw [ha]
  refine ⟨h3 (by decide), by omega, hs, hst, fun h => (satisfied_mask bus mask n).mp (h6 (by omega)),
    fun t ht1 ht2 hsat => h7 t ht1 ht2 ((satisfied_mask bus mask t).mpr hsat)⟩

/-! ## The interrupt-driven reader -/

theorem shiftBits_append (d : Frame) (n : Nat) (xs ys : List Bool) :
    shiftBits d n (xs ++ ys) = shiftBits (shiftBits d n xs) (n + xs.length) ys := by
  induction xs generalizing d n with
  | nil => rfl
  | cons x xs ih =>
    rw [List.cons_append]
    simp only [shiftBits, List.length_cons]
    rw [ih, show n + 1 + xs.length = n + (xs.length + 1) by ring]

theorem shiftBits_within (j : Nat) (hj : j < 5) (bits : List Bool) :
    ∀ (d : Frame) (i : Nat), i + bits.length ≤ 8 →
      shiftBits d (8 * j + i) bits = d.set j (bits.foldl shiftIn (d.get j)) := by
  induction bits with
  | nil => intro d i _; simp [shiftBits, Frame.set_get]
  | cons b bs ih =>
    intro d i h
    simp only [List.length_cons] at h
    have hdiv : (8 * j + i) / 8 = j := by omega
    simp only [shiftBits, hdiv, List.foldl_cons]
    rw [show 8 * j + i + 1 = 8 * j + (i + 1) by ring, ih _ (i + 1) (by omega),
      Frame.get_set _ _ _ hj, Frame.set_set]

theorem shiftBits_byte (j : Nat) (hj : j < 5) (d : Frame) (x : Nat) (hx : x < 256) :
    shiftBits d (8 * j) (byteBits x) = d.set j x := by
  have h := shiftBits_within j hj (byteBits x) d 0 (by simp [byteBits])
  rw [Nat.add_zero] at h
  rw [h, foldl_shiftIn_eight _ _ (by simp [byteBits]), packBits_byteBits x hx]

/-- Forty samples shifted in from bit-index `0` leave exactly the transmitted
frame in the buffer, whatever the buffer held before. -/
theorem shiftBits_frameBits (d : Frame) (a b c e f : Nat)
    (ha : a < 256) (hb : b < 256) (hc : c < 256) (he : e < 256) (hf : f < 256) :
    shiftBits d 0 (frameBits a b c e f) = ⟨a, b, c, e, f⟩ := by
  have hlen : ∀ x, (byteBits x).length = 8 := fun x => rfl
  simp only [frameBits, shiftBits_append, List.length_append, hlen, Nat.zero_add]
  rw [shiftBits_byte 0 (by decide) d a ha, shiftBits_byte 1 (by decide) _ b hb,
    shiftBits_byte 2 (by decide) _ c hc, shiftBits_byte 3 (by decide) _ e he,
    shiftBits_byte 4 (by decide) _ f hf]
  rfl

theorem processIsr_step (s : State) (e : Edge) (hidx : s.idx < 39)
    (ht : elapsed e.now s.conversionStartMillis ≤ 25) :
    processIsr s e = (none, { s with
      data := s.data.set (s.idx / 8) (shiftIn (s.data.get (s.idx / 8)) e.bit),
      idx := s.idx + 1 }) := by
  have h1 : ¬ (s.idx ≥ 40 ∨ elapsed e.now s.conversionStartMillis > TN901_FRAME_TIMEOUT) := by
    simp only [TN901_FRAME_TIMEOUT]; omega
  have h2 : (s.idx + 1) % 256 = s.idx + 1 := by omega
  have h3 : ¬ (s.idx + 1 ≥ 40) := by omega
  simp only [processIsr, h1, if_false, h2, h3]

theorem processIsr_last (s : State) (e : Edge) (hidx : s.idx = 39)
    (ht : elapsed e.now s.conversionStartMillis ≤ 25) :
    processIsr s e =
      (some (updateTemperature { s with
          data := s.data.set (s.idx / 8) (shiftIn (s.data.get (s.idx / 8)) e.bit),
          idx := 40 }).1,
        (updateTemperature { s with
          data := s.data.set (s.idx / 8) (shiftIn (s.data.get (s.idx / 8)) e.bit),
          idx := 40 }).2) := by
  have h1 : ¬ (s.idx ≥ 40 ∨ elapsed e.now s.conversionStartMillis > TN901_FRAME_TIMEOUT) := by
    simp only [TN901_FRAME_TIMEOUT]; omega
  have h2 : (s.idx + 1) % 256 = 40 := by omega
  simp only [processIsr, h1, if_false, h2]
  simp

/-- A run of `processIsr` that brings the bit-index to `40` without a timeout
calls the decoder in its last invocation and in no other, on the buffer with
all samples of the run shifted in. -/
theorem runIsr_to_forty (edges : List Edge) :
    ∀ (s : State), edges ≠ [] → s.idx + edges.length = 40 →
      (∀ ed ∈ edges, elapsed ed.now s.conversionStartMillis ≤ 25) →
      runIsr s edges =
        (List.replicate (edges.length - 1) none ++
          [some (updateTemperature { s with
            data := shiftBits s.data s.idx (edges.map Edge.bit), idx := 40 }).1],
         (updateTemperature { s with
            data := shiftBits s.data s.idx (edges.map Edge.bit), idx := 40 }).2) := by
  induction edges with
  | nil => intro s h; exact absurd rfl h
  | cons e es ih =>
    intro s _ hlen ht
    simp only [List.length_cons] at hlen
    have hte := ht e (List.mem_cons_self _ _)
    by_cases hes : es = []
    · subst hes
      simp only [List.length_nil] at hlen
      simp [runIsr, processIsr_last s e (by omega) hte, shiftBits]
    · have hpos : 0 < es.length := List.length_pos.mpr hes
      have hstep := processIsr_step s e (by omega) hte
      have hih := ih (processIsr s e).2 hes (by rw [hstep]; simp only; omega)
        (by rw [hstep]; exact fun ed hed => ht ed (List.mem_cons_of_mem _ hed))
      rw [hstep] at hih
      simp only [runIsr, hstep, hih, List.map_cons, shiftBits, List.length_cons,
        Nat.add_sub_cancel]
      congr 1
      obtain ⟨m, hm⟩ := Nat.exists_eq_succ_of_ne_zero (Nat.pos_iff_ne_zero.mp hpos)
      rw [hm]
      rfl


/-! ## The claims -/

/-- C1: a buffer `(a, b, c, d, e)` with the terminator `e = 0x0d`, the checksum
`(a + b + c) mod 256 = d` and the Object address `a = 0x4c` makes
`updateTemperature` return `MODE_OT = 0x01`, store `(b * 256 + c) / 16 - 273.15`
in the Object cache and raise the Object flag; the Environment cache and flag,
the buffer, the bit-index, the start timestamp and the pins stay as they were. -/
theorem updateTemperature_object (s : State) (a b c d e : Nat)
    (hdata : s.data = ⟨a, b, c, d, e⟩) (hend : e = 0x0d) (hsum : (a + b + c) % 256 = d)
    (haddr : a = 0x4c) :
    (updateTemperature s).1 = MODE_OT ∧ MODE_OT = 0x01 ∧
    (updateTemperature s).2.tempObject = ((b : ℚ) * 256 + c) / 16 - 273.15 ∧
    (updateTemperature s).2.objectUpdated = true ∧
    (updateTemperature s).2.tempEnvironment = s.tempEnvironment ∧
    (updateTemperature s).2.environmentUpdated = s.environmentUpdated ∧
    (updateTemperature s).2.data = s.data ∧
    (updateTemperature s).2.idx = s.idx ∧
    (updateTemperature s).2.conversionStartMillis = s.conversionStartMillis ∧
    (updateTemperature s).2.dataPin = s.dataPin ∧
    (updateTemperature s).2.clkPin = s.clkPin ∧
    (updateTemperature s).2.ackPin = s.ackPin := by
  subst hend haddr
  simp [updateTemperature, hdata, Frame.get, land_ff, hsum, TN901_ENDADDRESS, TN901_OTADDRESS,
    MODE_OT, decodeTemperature, rawValue]

/-- C1 at the frame `(0x4c, 0x12, 0x34, 0x92, 0x0d)`. -/
theorem updateTemperature_object_witness :
    (stateWith ⟨0x4c, 0x12, 0x34, 0x92, 0x0d⟩).data = ⟨0x4c, 0x12, 0x34, 0x92, 0x0d⟩ ∧
    (0x0d : Nat) = 0x0d ∧ (0x4c + 0x12 + 0x34) % 256 = 0x92 ∧ (0x4c : Nat) = 0x4c ∧
    (updateTemperature (stateWith ⟨0x4c, 0x12, 0x34, 0x92, 0x0d⟩)).1 = MODE_OT ∧
    (updateTemperature (stateWith ⟨0x4c, 0x12, 0x34, 0x92, 0x0d⟩)).2.objectUpdated = true :=
  have h := updateTemperature_object (stateWith ⟨0x4c, 0x12, 0x34, 0x92, 0x0d⟩)
    0x4c 0x12 0x34 0x92 0x0d rfl rfl (by decide) rfl
  ⟨rfl, rfl, by decide, rfl, h.1, h.2.2.2.1⟩

/-- C2: a buffer `(a, b, c, d, e)` with the terminator `e = 0x0d`, the checksum
`(a + b + c) mod 256 = d` and the Environment address `a = 0x66` makes
`updateTemperature` return `MODE_ET = 0x02`, store `(b * 256 + c) / 16 - 273.15`
in the Environment cache and raise the Environment flag; the Object cache and
flag, the buffer, the bit-index, the start timestamp and the pins stay as they
were. -/
theorem updateTemperature_environment (s : State) (a b c d e : Nat)
    (hdata : s.data = ⟨a, b, c, d, e⟩) (hend : e = 0x0d) (hsum : (a + b + c) % 256 = d)
    (haddr : a = 0x66) :
    (updateTemperature s).1 = MODE_ET ∧ MODE_ET = 0x02 ∧
    (updateTemperature s).2.tempEnvironment = ((b : ℚ) * 256 + c) / 16 - 273.15 ∧
    (updateTemperature s).2.environmentUpdated = true ∧
    (updateTemperature s).2.tempObject = s.tempObject ∧
    (updateTemperature s).2.objectUpdated = s.objectUpdated ∧
    (updateTemperature s).2.data = s.data ∧
    (updateTemperature s).2.idx = s.idx ∧
    (updateTemperature s).2.conversionStartMillis = s.conversionStartMillis ∧
    (updateTemperature s).2.dataPin = s.dataPin ∧
    (updateTemperature s).2.clkPin = s.clkPin ∧
    (updateTemperature s).2.ackPin = s.ackPin := by
  subst hend haddr
  simp [updateTemperature, hdata, Frame.get, land_ff, hsum, TN901_ENDADDRESS, TN901_OTADDRESS,
    TN901_ETADDRESS, MODE_ET, decodeTemperature, rawValue]

/-- C2 at the frame `(0x66, 0x12, 0x34, 0xac, 0x0d)`. -/
theorem updateTemperature_environment_witness :
    (stateWith ⟨0x66, 0x12, 0x34, 0xac, 0x0d⟩).data = ⟨0x66, 0x12, 0x34, 0xac, 0x0d⟩ ∧
    (0x0d : Nat) = 0x0d ∧ (0x66 + 0x12 + 0x34) % 256 = 0xac ∧ (0x66 : Nat) = 0x66 ∧
    (updateTemperature (stateWith ⟨0x66, 0x12, 0x34, 0xac, 0x0d⟩)).1 = MODE_ET ∧
    (updateTemperature (stateWith ⟨0x66, 0x12, 0x34, 0xac, 0x0d⟩)).2.environmentUpdated = true :=
  have h := updateTemperature_environment (stateWith ⟨0x66, 0x12, 0x34, 0xac, 0x0d⟩)
    0x66 0x12 0x34 0xac 0x0d rfl rfl (by decide) rfl
  ⟨rfl, rfl, by decide, rfl, h.1, h.2.2.2.1⟩

/-- C3: on a buffer `(a, b, c, d, e)`, `updateTemperature` returns a non-zero
mask exactly if `e = 0x0d`, `(a + b + c) mod 256 = d` and `a` is `0x4c` or
`0x66`; the mask is `0x00`, or `MODE_OT = 0x01` (for `0x4c`), or
`MODE_ET = 0x02` (for `0x66`), never `0x03`. The frame `(0x4c, 0x12, 0x34, 0x62, 0x0d)` is rejected, the same frame
with the checksum byte `0x92` is accepted. -/
theorem updateTemperature_accepts_iff (s : State) (a b c d e : Nat) :
    ((updateTemperature { s with data := ⟨a, b, c, d, e⟩ }).1 ≠ 0 ↔
      e = 0x0d ∧ (a + b + c) % 256 = d ∧ (a = 0x4c ∨ a = 0x66)) ∧
    ((updateTemperature { s with data := ⟨a, b, c, d, e⟩ }).1 = 0x00 ∨
      ((updateTemperature { s with data := ⟨a, b, c, d, e⟩ }).1 = MODE_OT ∧ a = 0x4c) ∨
      ((updateTemperature { s with data := ⟨a, b, c, d, e⟩ }).1 = MODE_ET ∧ a = 0x66)) ∧
    MODE_OT = 0x01 ∧ MODE_ET = 0x02 ∧
    (updateTemperature { s with data := ⟨a, b, c, d, e⟩ }).1 ≠ 0x03 ∧
    (updateTemperature { s with data := ⟨0x4c, 0x12, 0x34, 0x62, 0x0d⟩ }).1 = 0 ∧
    (updateTemperature { s with data := ⟨0x4c, 0x12, 0x34, 0x92, 0x0d⟩ }).1 = 0x01 := by
  refine ⟨?_, ?_, rfl, rfl, ?_, ?_, ?_⟩
  · simp only [updateTemperature, Frame.get, land_ff, TN901_ENDADDRESS, TN901_OTADDRESS,
      TN901_ETADDRESS, MODE_OT, MODE_ET]
    split_ifs with h1 h2 h3 <;> simp_all
  · simp only [updateTemperature, Frame.get, land_ff, TN901_ENDADDRESS, TN901_OTADDRESS,
      TN901_ETADDRESS, MODE_OT, MODE_ET]
    split_ifs with h1 h2 h3 <;> simp_all
  · simp only [updateTemperature, Frame.get, land_ff, TN901_ENDADDRESS, TN901_OTADDRESS,
      TN901_ETADDRESS, MODE_OT, MODE_ET]
    split_ifs with h1 h2 h3 <;> simp
  · simp [updateTemperature, Frame.get, land_ff, TN901_ENDADDRESS]
  · simp [updateTemperature, Frame.get, land_ff, TN901_ENDADDRESS, TN901_OTADDRESS, MODE_OT]

/-- C4: when the buffer fails the terminator check (`byte4 ≠ 0x0d`), fails the
checksum check (`(byte0 + byte1 + byte2) mod 256 ≠ byte3`) or carries an address
other than `0x4c` and `0x66`, `updateTemperature` returns `0x00` and the state
after the call is the state before it. -/
theorem updateTemperature_rejects (s : State)
    (h : s.data.b4 ≠ 0x0d ∨ (s.data.b0 + s.data.b1 + s.data.b2) % 256 ≠ s.data.b3 ∨
      (s.data.b0 ≠ 0x4c ∧ s.data.b0 ≠ 0x66)) :
    updateTemperature s = (0x00, s) := by
  simp only [updateTemperature, Frame.get, land_ff, TN901_ENDADDRESS, TN901_OTADDRESS,
    TN901_ETADDRESS, MODE_OT, MODE_ET]
  split_ifs with h1 h2 h3
  · rcases h with h | h | h
    · exact absurd h1.1 h
    · exact absurd h1.2 h
    · exact absurd h2 h.1
  · rcases h with h | h | h
    · exact absurd h1.1 h
    · exact absurd h1.2 h
    · exact absurd h3 h.2
  · rfl
  · rfl

/-- C4 at the frame `(0x4c, 0x12, 0x34, 0x62, 0x0d)`, whose checksum byte is wrong. -/
theorem updateTemperature_rejects_witness :
    ((stateWith ⟨0x4c, 0x12, 0x34, 0x62, 0x0d⟩).data.b4 ≠ 0x0d ∨
      ((stateWith ⟨0x4c, 0x12, 0x34, 0x62, 0x0d⟩).data.b0 +
        (stateWith ⟨0x4c, 0x12, 0x34, 0x62, 0x0d⟩).data.b1 +
        (stateWith ⟨0x4c, 0x12, 0x34, 0x62, 0x0d⟩).data.b2) % 256 ≠
        (stateWith ⟨0x4c, 0x12, 0x34, 0x62, 0x0d⟩).data.b3 ∨
      ((stateWith ⟨0x4c, 0x12, 0x34, 0x62, 0x0d⟩).data.b0 ≠ 0x4c ∧
        (stateWith ⟨0x4c, 0x12, 0x34, 0x62, 0x0d⟩).data.b0 ≠ 0x66)) ∧
    updateTemperature (stateWith ⟨0x4c, 0x12, 0x34, 0x62, 0x0d⟩)
      = (0x00, stateWith ⟨0x4c, 0x12, 0x34, 0x62, 0x0d⟩) :=
  ⟨Or.inr (Or.inl (by decide)),
   updateTemperature_rejects _ (Or.inr (Or.inl (by decide)))⟩

/-- C5, as stated, fails: on the frame `(0x4c, 0x12, 0x34, 0x92, 0x0d)` the raw
value is not `4712` and the stored Object temperature is not `21.35`. -/
theorem golden_vector_refuted :
    rawValue ⟨0x4c, 0x12, 0x34, 0x92, 0x0d⟩ ≠ 4712 ∧
    (updateTemperature (stateWith ⟨0x4c, 0x12, 0x34, 0x92, 0x0d⟩)).2.tempObject ≠ 21.35 := by
  constructor
  · simp [rawValue, Frame.get]; norm_num
  · simp [updateTemperature, stateWith, Frame.get, land_ff, TN901_ENDADDRESS, TN901_OTADDRESS,
      decodeTemperature, rawValue]
    norm_num

/-- C5, amended: decoding the frame `(0x4c, 0x12, 0x34, 0x92, 0x0d)` yields the
raw value `0x12 * 256 + 0x34 = 4660`, returns `MODE_OT`, raises the Object flag
and stores an Object temperature of `4660 / 16 - 273.15 = 18.10` degrees. -/
theorem golden_vector (s : State) :
    rawValue ⟨0x4c, 0x12, 0x34, 0x92, 0x0d⟩ = 4660 ∧
    (updateTemperature { s with data := ⟨0x4c, 0x12, 0x34, 0x92, 0x0d⟩ }).1 = MODE_OT ∧
    (updateTemperature { s with data := ⟨0x4c, 0x12, 0x34, 0x92, 0x0d⟩ }).2.objectUpdated = true ∧
    (updateTemperature { s with data := ⟨0x4c, 0x12, 0x34, 0x92, 0x0d⟩ }).2.tempObject
      = 18.10 := by
  refine ⟨?_, ?_, ?_, ?_⟩
  · simp [rawValue, Frame.get]; norm_num
  · simp [updateTemperature, Frame.get, land_ff, TN901_ENDADDRESS, TN901_OTADDRESS]
  · simp [updateTemperature, Frame.get, land_ff, TN901_ENDADDRESS, TN901_OTADDRESS]
  · simp [updateTemperature, Frame.get, land_ff, TN901_ENDADDRESS, TN901_OTADDRESS,
      decodeTemperature, rawValue]
    norm_num

/-- C6: `getObjectTemperature` returns the cached Object temperature and leaves
the state with the Object flag down and everything else as it was; a second
call returns the same value and leaves the state as the first call left it.
The same holds for `getEnvironmentTemperature` and the Environment channel.
`isObjectTemperatureUpdated` and `isEnvironmentTemperatureUpdated` return the
respective flag and leave the state as it was. -/
theorem getters_read_and_acknowledge (s : State) :
    (getObjectTemperature s).1 = s.tempObject ∧
    (getObjectTemperature s).2 = { s with objectUpdated := false } ∧
    (getObjectTemperature (getObjectTemperature s).2).1 = (getObjectTemperature s).1 ∧
    (getObjectTemperature (getObjectTemperature s).2).2 = (getObjectTemperature s).2 ∧
    (getEnvironmentTemperature s).1 = s.tempEnvironment ∧
    (getEnvironmentTemperature s).2 = { s with environmentUpdated := false } ∧
    (getEnvironmentTemperature (getEnvironmentTemperature s).2).1
      = (getEnvironmentTemperature s).1 ∧
    (getEnvironmentTemperature (getEnvironmentTemperature s).2).2
      = (getEnvironmentTemperature s).2 ∧
    isObjectTemperatureUpdated s = (s.objectUpdated, s) ∧
    isEnvironmentTemperatureUpdated s = (s.environmentUpdated, s) := by
  simp [getObjectTemperature, getEnvironmentTemperature, isObjectTemperatureUpdated,
    isEnvironmentTemperatureUpdated]

/-- C7: `read` makes exactly `k` frame attempts (and takes `40 k` samples),
where `k` is the least number in `1..10` such that every channel requested by
`mask & 0x03` has been obtained by a valid frame among the first `k` frames on
the bus, and `k = 10` if there is no such number; every attempted frame is
decoded. With the mask `0x03` and a bus whose first two frames are a valid
Object frame and a valid Environment frame, in either order, `read` makes
exactly 2 attempts and both channels end updated with the temperatures of
those two frames. -/
theorem read_attempts_least (s : State) (mask : Nat) (bus : Nat → Bool) :
    1 ≤ (read s mask bus).attempts ∧ (read s mask bus).attempts ≤ 10 ∧
    (read s mask bus).samples = 40 * (read s mask bus).attempts ∧
    (read s mask bus).state = decodeFrames bus s (read s mask bus).attempts ∧
    ((∃ k, 1 ≤ k ∧ k ≤ 10 ∧ Satisfied bus mask k) →
      Satisfied bus mask (read s mask bus).attempts ∧
      ∀ k, 1 ≤ k → k ≤ 10 → Satisfied bus mask k → (read s mask bus).attempts ≤ k) ∧
    ((¬ ∃ k, 1 ≤ k ∧ k ≤ 10 ∧ Satisfied bus mask k) → (read s mask bus).attempts = 10) ∧
    (∀ c₀ c₁ : Channel, c₀ ≠ c₁ →
      ValidFor c₀.addr (busFrame bus 0) → ValidFor c₁.addr (busFrame bus 1) →
      (read s 0x03 bus).attempts = 2 ∧
      (read s 0x03 bus).state.updated c₀ = true ∧
      (read s 0x03 bus).state.updated c₁ = true ∧
      (read s 0x03 bus).state.temp c₀ = decodeTemperature (busFrame bus 0) ∧
      (read s 0x03 bus).state.temp c₁ = decodeTemperature (busFrame bus 1)) := by
  obtain ⟨h1, h2, h3, h4, h5, h6⟩ := read_spec s mask bus
  refine ⟨h1, h2, h3, h4, ?_, ?_, ?_⟩
  · rintro ⟨k, hk1, hk2, hk⟩
    have hle : ∀ k, 1 ≤ k → k ≤ 10 → Satisfied bus mask k → (read s mask bus).attempts ≤ k := by
      intro k hk1 _ hk
      by_contra hlt
      exact h6 k hk1 (by omega) hk
    refine ⟨?_, hle⟩
    by_cases hlt : (read s mask bus).attempts < 10
    · exact h5 hlt
    · have h10 : (read s mask bus).attempts = 10 := by omega
      have := hle k hk1 hk2 hk
      have hk10 : k = 10 := by omega
      rw [h10, ← hk10]; exact hk
  · intro hnone
    by_contra hne
    exact hnone ⟨_, h1, h2, h5 (by omega)⟩
  · intro c₀ c₁ hc hv0 hv1
    obtain ⟨g1, g2, _, g4, g5, g6⟩ := read_spec s 0x03 bus
    have hnv : ¬ ValidFor c₁.addr (busFrame bus 0) := by
      intro hv
      cases c₀ <;> cases c₁ <;> first
        | exact hc rfl
        | exact not_valid_both _ ⟨hv0, hv⟩
        | exact not_valid_both _ ⟨hv, hv0⟩
    have hnv1 : ¬ ValidFor c₀.addr (busFrame bus 1) := by
      intro hv
      cases c₀ <;> cases c₁ <;> first
        | exact hc rfl
        | exact not_valid_both _ ⟨hv1, hv⟩
        | exact not_valid_both _ ⟨hv, hv1⟩
    have hsat2 : Satisfied bus 0x03 2 := by
      cases c₀ <;> cases c₁ <;> first
        | exact absurd rfl hc
        | exact ⟨fun _ => ⟨0, by decide, hv0⟩, fun _ => ⟨1, by decide, hv1⟩⟩
        | exact ⟨fun _ => ⟨1, by decide, hv1⟩, fun _ => ⟨0, by decide, hv0⟩⟩
    have hnsat1 : ¬ Satisfied bus 0x03 1 := by
      intro hs
      have hob : Obtained bus c₁.addr 1 := by
        cases c₁
        · exact hs.1 (by decide)
        · exact hs.2 (by decide)
      obtain ⟨i, hi, hv⟩ := hob
      have hi0 : i = 0 := by omega
      subst hi0
      exact hnv hv
    have hn : (read s 0x03 bus).attempts = 2 := by
      by_contra hne
      by_cases hlt : (read s 0x03 bus).attempts < 2
      · have h1' : (read s 0x03 bus).attempts = 1 := by omega
        exact hnsat1 (by rw [← h1']; exact g5 (by omega))
      · exact g6 2 (by decide) (by omega) hsat2
    rw [g4, hn]
    refine ⟨rfl, ?_, ?_, ?_, ?_⟩
    · simp [decodeFrames, decodeFrame_updated, hv0]
    · simp [decodeFrames, decodeFrame_updated, hv1]
    · simp [decodeFrames, decodeFrame_temp, hv0, hnv1]
    · simp [decodeFrames, decodeFrame_temp, hv1]

set_option maxRecDepth 100000 in
/-- C7 on the alternating bus: Object frame first, Environment frame second. -/
theorem read_attempts_least_witness :
    Channel.object ≠ Channel.environment ∧
    ValidFor Channel.object.addr (busFrame alternatingBus 0) ∧
    ValidFor Channel.environment.addr (busFrame alternatingBus 1) ∧
    (read (stateWith ⟨0, 0, 0, 0, 0⟩) 0x03 alternatingBus).attempts = 2 ∧
    (read (stateWith ⟨0, 0, 0, 0, 0⟩) 0x03 alternatingBus).state.updated .object = true ∧
    (read (stateWith ⟨0, 0, 0, 0, 0⟩) 0x03 alternatingBus).state.updated .environment = true :=
  have h := (read_attempts_least (stateWith ⟨0, 0, 0, 0, 0⟩) 0x03 alternatingBus).2.2.2.2.2.2
    Channel.object Channel.environment (by decide) (by decide) (by decide)
  ⟨by decide, by decide, by decide, h.1, h.2.1, h.2.2.1⟩

/-- C8: when the first ten frames on the bus contain no valid frame for a
requested channel, `read` makes exactly ten attempts (taking 400 samples),
returns its result like any other call, and leaves that channel's cached
temperature and flag exactly as they were before the call. -/
theorem read_exhausted (s : State) (mask : Nat) (bus : Nat → Bool) (c : Channel)
    (hreq : mask &&& c.bit ≠ 0) (hnone : ¬ Obtained bus c.addr 10) :
    (read s mask bus).attempts = 10 ∧ (read s mask bus).samples = 400 ∧
    (read s mask bus).ack = [false, true] ∧
    (read s mask bus).state.temp c = s.temp c ∧
    (read s mask bus).state.updated c = s.updated c := by
  obtain ⟨h1, h2, h3, h4, h5, _⟩ := read_spec s mask bus
  have hn : (read s mask bus).attempts = 10 := by
    by_contra hne
    have hsat := h5 (by omega)
    have hob : Obtained bus c.addr (read s mask bus).attempts := by
      cases c
      · exact hsat.1 hreq
      · exact hsat.2 hreq
    exact hnone (obtained_mono bus _ h2 hob)
  refine ⟨hn, by rw [h3, hn], rfl, ?_, ?_⟩
  · rw [h4, hn]; exact decodeFrames_temp bus s c 10 hnone
  · rw [h4, hn, decodeFrames_updated]; simp [hnone]

set_option maxRecDepth 100000 in
/-- C8 on a bus that carries only valid Object frames, with the mask `0x03`:
ten attempts, and the Environment flag, down before the call, is down after it. -/
theorem read_exhausted_witness :
    (0x03 &&& Channel.environment.bit ≠ 0) ∧
    ¬ Obtained objectOnlyBus Channel.environment.addr 10 ∧
    (stateWith ⟨0, 0, 0, 0, 0⟩).updated .environment = false ∧
    (read (stateWith ⟨0, 0, 0, 0, 0⟩) 0x03 objectOnlyBus).attempts = 10 ∧
    (read (stateWith ⟨0, 0, 0, 0, 0⟩) 0x03 objectOnlyBus).state.updated .environment = false :=
  have h := read_exhausted (stateWith ⟨0, 0, 0, 0, 0⟩) 0x03 objectOnlyBus .environment
    (by decide) (by decide)
  ⟨by decide, by decide, rfl, h.1, h.2.2.2.2⟩

theorem silentBus_not_obtained (a n : Nat) : ¬ Obtained silentBus a n := by
  rintro ⟨i, _, hv⟩
  have h4 : (busFrame silentBus i).b4 = 0 := by
    simp [busFrame, busFrameAt, busBits, silentBus, packBits]
  have := hv.1
  omega

/-- C9, as stated, fails: with the Object flag up before the call, the mask
`0x01` and a bus that carries no valid frame, the Object flag is up after
`read` although no valid Object frame was received during the call. -/
theorem read_flag_iff_refuted :
    (0x01 &&& Channel.object.bit ≠ 0) ∧
    (read staleFlagState 0x01 silentBus).state.updated .object = true ∧
    ¬ Obtained silentBus Channel.object.addr (read staleFlagState 0x01 silentBus).attempts := by
  refine ⟨by decide, ?_, silentBus_not_obtained _ _⟩
  rw [(read_spec staleFlagState 0x01 silentBus).2.2.2.1, decodeFrames_updated]
  rfl

/-- C9, amended: after `read(mask)` returns, a channel's flag is up if and only
if it was up before the call or a valid frame for that channel was among the
frames attempted by this call; so for a channel whose flag was down before the
call, the flag tells whether the channel was obtained by this `read`. -/
theorem read_updated_flag (s : State) (mask : Nat) (bus : Nat → Bool) (c : Channel) :
    (read s mask bus).state.updated c = true ↔
      (s.updated c = true ∨ Obtained bus c.addr (read s mask bus).attempts) := by
  rw [(read_spec s mask bus).2.2.2.1, decodeFrames_updated]
  simp

/-- C10: starting from bit-index `0` with any buffer contents, forty
invocations of `processIsr`, none of them more than 25 ms after the start
timestamp, whose samples are the bits of a valid Object or Environment frame
`(a, b, c, d, e)` (byte 0 first, most significant bit first), call the decoder
exactly once, in the fortieth invocation. That call updates exactly the channel
addressed by `a`: its cache becomes `(b * 256 + c) / 16 - 273.15` and its flag
goes up, the cache and flag of the other channel stay as they were. -/
theorem processIsr_forty_samples (s : State) (edges : List Edge) (a b c d e : Nat)
    (ch : Channel)
    (hidx : s.idx = 0)
    (hbits : edges.map Edge.bit = frameBits a b c d e)
    (htime : ∀ ed ∈ edges, elapsed ed.now s.conversionStartMillis ≤ 25)
    (hb : b < 256) (hc : c < 256)
    (hend : e = 0x0d) (hsum : (a + b + c) % 256 = d) (haddr : a = ch.addr) :
    edges.length = 40 ∧
    (runIsr s edges).1 = List.replicate 39 none ++ [some ch.bit] ∧
    (runIsr s edges).2.temp ch = ((b : ℚ) * 256 + c) / 16 - 273.15 ∧
    (runIsr s edges).2.updated ch = true ∧
    (∀ other : Channel, other ≠ ch →
      (runIsr s edges).2.temp other = s.temp other ∧
      (runIsr s edges).2.updated other = s.updated other) ∧
    (runIsr s edges).2.data = ⟨a, b, c, d, e⟩ ∧
    (runIsr s edges).2.idx = 40 ∧
    (runIsr s edges).2.conversionStartMillis = s.conversionStartMillis := by
  have hlen : edges.length = 40 := by
    have h := congrArg List.length hbits
    simpa [frameBits, byteBits] using h
  have hne : edges ≠ [] := by
    intro h0; rw [h0] at hlen; exact absurd hlen (by decide)
  have ha : a < 256 := by cases ch <;> simp [haddr, Channel.addr]
  have hd : d < 256 := by omega
  have he : e < 256 := by omega
  have hrun := runIsr_to_forty edges s hne (by rw [hidx, hlen]) htime
  rw [hidx, hbits, shiftBits_frameBits s.data a b c d e ha hb hc hd he] at hrun
  rw [hrun, hlen]
  have hv : ValidFor ch.addr ⟨a, b, c, d, e⟩ := ⟨hend, hsum, haddr⟩
  have hdec : decodeTemperature ⟨a, b, c, d, e⟩ = ((b : ℚ) * 256 + c) / 16 - 273.15 := by
    simp [decodeTemperature, rawValue, Frame.get]
  refine ⟨rfl, ?_, ?_, ?_, ?_, ?_, ?_, ?_⟩
  · cases ch <;> simp_all [updateTemperature_eq, Channel.addr, Channel.bit, ValidFor]
  · cases ch <;>
      simp_all [updateTemperature_eq, Channel.addr, ValidFor, State.temp]
  · cases ch <;>
      simp_all [updateTemperature_eq, Channel.addr, ValidFor, State.updated]
  · intro other hother
    cases ch <;> cases other <;>
      simp_all [updateTemperature_eq, Channel.addr, ValidFor, State.temp, State.updated]
  · cases ch <;> simp_all [updateTemperature_eq, Channel.addr, ValidFor]
  · cases ch <;> simp_all [updateTemperature_eq, Channel.addr, ValidFor]
  · cases ch <;> simp_all [updateTemperature_eq, Channel.addr, ValidFor]

set_option maxRecDepth 100000 in
/-- C10 on forty edges carrying the frame `(0x4c, 0x12, 0x34, 0x92, 0x0d)`,
starting from a stale buffer. -/
theorem processIsr_forty_samples_witness :
    (stateWith ⟨0xff, 0xff, 0xff, 0xff, 0xff⟩).idx = 0 ∧
    objectEdges.map Edge.bit = frameBits 0x4c 0x12 0x34 0x92 0x0d ∧
    (∀ ed ∈ objectEdges,
      elapsed ed.now (stateWith ⟨0xff, 0xff, 0xff, 0xff, 0xff⟩).conversionStartMillis ≤ 25) ∧
    (0x12 < 256) ∧ (0x34 < 256) ∧ (0x0d : Nat) = 0x0d ∧ (0x4c + 0x12 + 0x34) % 256 = 0x92 ∧
    0x4c = Channel.object.addr ∧
    (runIsr (stateWith ⟨0xff, 0xff, 0xff, 0xff, 0xff⟩) objectEdges).1
      = List.replicate 39 none ++ [some Channel.object.bit] ∧
    (runIsr (stateWith ⟨0xff, 0xff, 0xff, 0xff, 0xff⟩) objectEdges).2.data
      = ⟨0x4c, 0x12, 0x34, 0x92, 0x0d⟩ :=
  have h := processIsr_forty_samples (stateWith ⟨0xff, 0xff, 0xff, 0xff, 0xff⟩) objectEdges
    0x4c 0x12 0x34 0x92 0x0d .object rfl (by decide) (by decide) (by decide) (by decide)
    rfl (by decide) rfl
  ⟨rfl, by decide, by decide, by decide, by decide, rfl, by decide, rfl, h.2.1, h.2.2.2.2.2.1⟩

/-! ## More on the interrupt-driven reader -/

theorem Frame.get_set_ne (f : Frame) (j k v : Nat) (h : j ≠ k) : (f.set k v).get j = f.get j := by
  rcases k with _ | _ | _ | _ | _ | k <;> rcases j with _ | _ | _ | _ | _ | j <;>
    first | rfl | exact absurd rfl h

theorem updateTemperature_frame (s : State) :
    (updateTemperature s).2.data = s.data ∧ (updateTemperature s).2.idx = s.idx ∧
    (updateTemperature s).2.conversionStartMillis = s.conversionStartMillis := by
  rw [updateTemperature_eq]
  split_ifs <;> exact ⟨rfl, rfl, rfl⟩

theorem shiftIn_zero (b : Bool) : shiftIn 0 b = bitValue b := by
  cases b <;> rfl

theorem isrReset_idx_lt (s : State) (e : Edge) : (isrReset s e).idx < 40 := by
  unfold isrReset
  split_ifs with h
  · exact Nat.zero_lt_succ _
  · simp only [not_or, not_le, ge_iff_le] at h
    exact h.1

theorem isrReset_idx_le (s : State) (e : Edge) : (isrReset s e).idx ≤ s.idx := by
  unfold isrReset
  split_ifs
  · exact Nat.zero_le _
  · exact le_refl _

theorem processIsr_eq_isrReset (s : State) (e : Edge) :
    processIsr s e =
      if ((isrReset s e).idx + 1) % 256 ≥ 40 then
        (some (updateTemperature { isrReset s e with
            data := (isrReset s e).data.set ((isrReset s e).idx / 8)
              (shiftIn ((isrReset s e).data.get ((isrReset s e).idx / 8)) e.bit),
            idx := ((isrReset s e).idx + 1) % 256 }).1,
         (updateTemperature { isrReset s e with
            data := (isrReset s e).data.set ((isrReset s e).idx / 8)
              (shiftIn ((isrReset s e).data.get ((isrReset s e).idx / 8)) e.bit),
            idx := ((isrReset s e).idx + 1) % 256 }).2)
      else
        (none, { isrReset s e with
            data := (isrReset s e).data.set ((isrReset s e).idx / 8)
              (shiftIn ((isrReset s e).data.get ((isrReset s e).idx / 8)) e.bit),
            idx := ((isrReset s e).idx + 1) % 256 }) := rfl

theorem processIsr_data (s : State) (e : Edge) :
    (processIsr s e).2.data = (isrReset s e).data.set ((isrReset s e).idx / 8)
      (shiftIn ((isrReset s e).data.get ((isrReset s e).idx / 8)) e.bit) := by
  rw [processIsr_eq_isrReset]
  split_ifs
  · simp only [(updateTemperature_frame _).1]
  · rfl

theorem processIsr_idx (s : State) (e : Edge) :
    (processIsr s e).2.idx = (isrReset s e).idx + 1 := by
  have h := isrReset_idx_lt s e
  have hm : ((isrReset s e).idx + 1) % 256 = (isrReset s e).idx + 1 := by omega
  rw [processIsr_eq_isrReset]
  split_ifs
  · simp only [(updateTemperature_frame _).2.1, hm]
  · simp only [hm]

theorem processIsr_fst (s : State) (e : Edge) :
    (processIsr s e).1 =
      if (isrReset s e).idx = 39 then
        some (updateTemperature { isrReset s e with data := (processIsr s e).2.data, idx := 40 }).1
      else none := by
  have h := isrReset_idx_lt s e
  have hm : ((isrReset s e).idx + 1) % 256 = (isrReset s e).idx + 1 := by omega
  rw [processIsr_data]
  rw [processIsr_eq_isrReset, hm]
  by_cases h39 : (isrReset s e).idx = 39
  · rw [if_pos (by omega), if_pos h39, h39]
  · rw [if_neg (by omega), if_neg h39]

theorem runIsr_append (s : State) (xs ys : List Edge) :
    runIsr s (xs ++ ys) =
      ((runIsr s xs).1 ++ (runIsr (runIsr s xs).2 ys).1, (runIsr (runIsr s xs).2 ys).2) := by
  induction xs generalizing s with
  | nil => rfl
  | cons x xs ih =>
    rw [List.cons_append]
    simp only [runIsr]
    rw [ih]
    rfl

theorem fresh_step (s : State) (bits : List Bool) (e : Edge) (h : Fresh s bits) :
    Fresh (processIsr s e).2 (bits ++ [e.bit]) := by
  obtain ⟨h40, hlen, d0, hd⟩ := h
  have hlt := isrReset_idx_lt s e
  unfold Fresh
  rw [processIsr_idx, processIsr_data]
  refine ⟨by omega, ?_, ?_⟩
  · have := isrReset_idx_le s e
    rw [List.length_append, List.length_singleton]
    omega
  · by_cases hr : s.idx ≥ 40 ∨ elapsed e.now s.conversionStartMillis > TN901_FRAME_TIMEOUT
    · refine ⟨⟨0, 0, 0, 0, 0⟩, ?_⟩
      have : isrReset s e = { s with idx := 0, conversionStartMillis := e.nowReset,
                                     data := ⟨0, 0, 0, 0, 0⟩ } := by
        unfold isrReset; rw [if_pos hr]
      rw [this]
      simp [shiftBits]
    · have : isrReset s e = s := by unfold isrReset; rw [if_neg hr]
      rw [this]
      refine ⟨d0, ?_⟩
      have hdrop : (bits ++ [e.bit]).drop ((bits ++ [e.bit]).length - (s.idx + 1))
          = bits.drop (bits.length - s.idx) ++ [e.bit] := by
        rw [List.length_append, List.length_singleton,
          show bits.length + 1 - (s.idx + 1) = bits.length - s.idx by omega,
          List.drop_append_of_le_length (by omega)]
      have hl : (bits.drop (bits.length - s.idx)).length = s.idx := by
        rw [List.length_drop]; omega
      rw [hdrop, shiftBits_append, ← hd, hl, Nat.zero_add]
      rfl

theorem fresh_run (s : State) (hidx : s.idx = 0) (edges : List Edge) :
    Fresh (runIsr s edges).2 (edges.map Edge.bit) := by
  induction edges using List.reverseRecOn with
  | nil => exact ⟨by simp [runIsr, hidx], by simp [runIsr, hidx], s.data, by simp [runIsr, shiftBits]⟩
  | append_singleton xs e ih =>
    rw [runIsr_append, List.map_append]
    exact fresh_step _ _ e ih

theorem shiftBits_chunk (j : Nat) (hj : j < 5) (d : Frame) (chunk : List Bool)
    (h : chunk.length = 8) : shiftBits d (8 * j) chunk = d.set j (packBits chunk) := by
  have h1 := shiftBits_within j hj chunk d 0 (by omega)
  rw [Nat.add_zero] at h1
  rw [h1, foldl_shiftIn_eight _ _ h]

theorem split_forty (bits : List Bool) (h : bits.length = 40) :
    bits = bits.take 8 ++ ((bits.drop 8).take 8 ++ ((bits.drop 16).take 8 ++
      ((bits.drop 24).take 8 ++ (bits.drop 32).take 8))) := by
  have h5 : (bits.drop 32).take 8 = bits.drop 32 :=
    List.take_of_length_le (by rw [List.length_drop]; omega)
  have e4 : (bits.drop 24).take 8 ++ bits.drop 32 = bits.drop 24 := by
    have := List.take_append_drop 8 (bits.drop 24)
    rwa [List.drop_drop] at this
  have e3 : (bits.drop 16).take 8 ++ bits.drop 24 = bits.drop 16 := by
    have := List.take_append_drop 8 (bits.drop 16)
    rwa [List.drop_drop] at this
  have e2 : (bits.drop 8).take 8 ++ bits.drop 16 = bits.drop 8 := by
    have := List.take_append_drop 8 (bits.drop 8)
    rwa [List.drop_drop] at this
  rw [h5, e4, e3, e2, List.take_append_drop]

theorem shiftBits_forty (d : Frame) (bits : List Bool) (h : bits.length = 40) :
    shiftBits d 0 bits = packFrame bits := by
  have l0 : (bits.take 8).length = 8 := by rw [List.length_take]; omega
  have l1 : ((bits.drop 8).take 8).length = 8 := by
    rw [List.length_take, List.length_drop]; omega
  have l2 : ((bits.drop 16).take 8).length = 8 := by
    rw [List.length_take, List.length_drop]; omega
  have l3 : ((bits.drop 24).take 8).length = 8 := by
    rw [List.length_take, List.length_drop]; omega
  have l4 : ((bits.drop 32).take 8).length = 8 := by
    rw [List.length_take, List.length_drop]; omega
  conv_lhs => rw [split_forty bits h]
  simp only [shiftBits_append, l0, l1, l2, l3, Nat.zero_add]
  rw [shiftBits_chunk 0 (by decide) _ _ l0, shiftBits_chunk 1 (by decide) _ _ l1,
    shiftBits_chunk 2 (by decide) _ _ l2, shiftBits_chunk 3 (by decide) _ _ l3,
    shiftBits_chunk 4 (by decide) _ _ l4]
  rfl

theorem busFrameAt_eq_packFrame (bus : Nat → Bool) (pos : Nat) :
    busFrameAt bus pos = packFrame ((List.range 40).map (fun t => bus (pos + t))) := by
  simp [busFrameAt, packFrame, busBits, List.range, List.range.loop, Nat.add_assoc]

/-! ## The pin events of the blocking reader -/

theorem dataReads_add (pos a b : Nat) :
    dataReads pos a ++ dataReads (pos + a) b = dataReads pos (a + b) := by
  simp [dataReads, List.range_add, Nat.add_assoc]

theorem readByteIo_eq (bus : Nat → Bool) (j : Nat) (sp : State × Nat) (log : List IoEvent) :
    readByteIo bus j (sp, log) = (readByte bus j sp, log ++ dataReads sp.2 8) := by
  simp [readByteIo, readByte, dataReads, List.range, List.range.loop, Nat.add_assoc]

theorem readByte_snd (bus : Nat → Bool) (j : Nat) (sp : State × Nat) :
    (readByte bus j sp).2 = sp.2 + 8 := by
  simp [readByte, List.range, List.range.loop]

theorem readFrameIo_eq (bus : Nat → Bool) (sp : State × Nat) (log : List IoEvent) :
    readFrameIo bus (sp, log) = (readFrame bus sp, log ++ dataReads sp.2 40) := by
  simp only [readFrameIo, readFrame, List.range, List.range.loop, List.foldl_cons, List.foldl_nil,
    readByteIo_eq, readByte_snd, List.append_assoc, dataReads_add]

theorem readFrame_snd (bus : Nat → Bool) (sp : State × Nat) :
    (readFrame bus sp).2 = sp.2 + 40 := by
  simp only [readFrame, List.range, List.range.loop, List.foldl_cons, List.foldl_nil,
    readByte_snd]

theorem readLoopIo_eq (bus : Nat → Bool) (mode : Nat) :
    ∀ (fuel k flag : Nat) (sp : State × Nat) (log : List IoEvent),
      (readLoopIo bus mode fuel k flag (sp, log)).1 = readLoop bus mode fuel k flag sp ∧
      ∃ n, (readLoop bus mode fuel k flag sp).samples = sp.2 + n ∧
        (readLoopIo bus mode fuel k flag (sp, log)).2 = log ++ dataReads sp.2 n := by
  intro fuel
  induction fuel with
  | zero =>
    intro k flag sp log
    exact ⟨rfl, 0, rfl, by simp [readLoopIo, dataReads]⟩
  | succ fuel ih =>
    intro k flag sp log
    simp only [readLoopIo, readLoop, readFrameIo_eq]
    split_ifs with h
    · exact ⟨rfl, 40, readFrame_snd bus sp, rfl⟩
    · obtain ⟨h1, n, h2, h3⟩ := ih (k + 1) (flag ||| (updateTemperature (readFrame bus sp).1).1)
        ((updateTemperature (readFrame bus sp).1).2, (readFrame bus sp).2)
        (log ++ dataReads sp.2 40)
      refine ⟨h1, 40 + n, ?_, ?_⟩
      · rw [h2, readFrame_snd]; omega
      · rw [h3, readFrame_snd, List.append_assoc, dataReads_add]

/-! ## Starting a conversion -/

theorem processIsr_of_reset (s : State) (e : Edge)
    (h : s.idx ≥ 40 ∨ elapsed e.now s.conversionStartMillis > TN901_FRAME_TIMEOUT) :
    isrReset s e =
      { s with idx := 0, conversionStartMillis := e.nowReset, data := ⟨0, 0, 0, 0, 0⟩ } ∧
    processIsr s e =
      (none, { s with idx := 1, conversionStartMillis := e.nowReset,
                      data := ⟨bitValue e.bit, 0, 0, 0, 0⟩ }) := by
  have hr : isrReset s e =
      { s with idx := 0, conversionStartMillis := e.nowReset, data := ⟨0, 0, 0, 0, 0⟩ } := by
    unfold isrReset
    rw [if_pos h]
  refine ⟨hr, ?_⟩
  rw [processIsr_eq_isrReset, hr]
  simp [Frame.get, Frame.set, shiftIn_zero]

theorem isrReset_of_no_reset (s : State) (e : Edge) (hidx : s.idx < 40)
    (ht : elapsed e.now s.conversionStartMillis ≤ TN901_FRAME_TIMEOUT) : isrReset s e = s := by
  unfold isrReset
  rw [if_neg]
  omega

theorem updateTemperature_idx_irrelevant (s : State) (i : Nat) (c : Channel) :
    (updateTemperature { s with idx := i }).1 = (updateTemperature s).1 ∧
    (updateTemperature { s with idx := i }).2.data = (updateTemperature s).2.data ∧
    (updateTemperature { s with idx := i }).2.temp c = (updateTemperature s).2.temp c ∧
    (updateTemperature { s with idx := i }).2.updated c = (updateTemperature s).2.updated c := by
  simp only [updateTemperature_eq]
  cases c <;> split_ifs <;> exact ⟨rfl, rfl, rfl, rfl⟩

theorem idxAfter_le (k : Nat) : idxAfter k ≤ 40 := by
  unfold idxAfter; split_ifs <;> omega

theorem idxAfter_succ (k : Nat) :
    idxAfter (k + 1) = if idxAfter k = 40 then 1 else idxAfter k + 1 := by
  rcases k with _ | k
  · rfl
  · simp only [idxAfter, Nat.add_one_ne_zero, if_false, Nat.add_sub_cancel]
    split_ifs with h <;> omega

theorem idxAfter_eq_39 (k : Nat) : idxAfter k = 39 ↔ (k + 1) % 40 = 0 := by
  rcases k with _ | k
  · simp [idxAfter]
  · simp only [idxAfter, Nat.add_one_ne_zero, if_false, Nat.add_sub_cancel]
    omega

theorem processIsr_isSome (s : State) (e : Edge) :
    (processIsr s e).1.isSome = decide ((isrReset s e).idx = 39) := by
  rw [processIsr_fst]
  split_ifs with h <;> simp [h]

theorem runIsr_idx_trace (edges : List Edge) :
    ∀ (s : State) (k : Nat), s.idx = idxAfter k → noTimeout s edges = true →
      (runIsr s edges).2.idx = idxAfter (k + edges.length) ∧
      (runIsr s edges).1.map Option.isSome
        = (List.range edges.length).map (fun t => decide ((k + t + 1) % 40 = 0)) := by
  induction edges with
  | nil => intro s k hk _; exact ⟨hk, rfl⟩
  | cons e es ih =>
    intro s k hk hnt
    simp only [noTimeout, Bool.and_eq_true, decide_eq_true_eq] at hnt
    obtain ⟨hto, hrest⟩ := hnt
    have hle := idxAfter_le k
    have hreset : (isrReset s e).idx = if idxAfter k = 40 then 0 else idxAfter k := by
      by_cases h40 : idxAfter k = 40
      · rw [if_pos h40, (processIsr_of_reset s e (Or.inl (by omega))).1]
      · rw [if_neg h40, isrReset_of_no_reset s e (by omega) (hto (by omega)), hk]
    have hnext : (processIsr s e).2.idx = idxAfter (k + 1) := by
      rw [processIsr_idx, hreset, idxAfter_succ]
      split_ifs <;> rfl
    obtain ⟨h1, h2⟩ := ih (processIsr s e).2 (k + 1) hnext hrest
    refine ⟨?_, ?_⟩
    · simp only [runIsr, List.length_cons]
      rw [h1]; congr 1; omega
    · simp only [runIsr, List.map_cons, List.length_cons, List.range_succ_eq_map, h2,
        List.map_map]
      congr 1
      · rw [processIsr_isSome, hreset]
        have := idxAfter_eq_39 k
        by_cases h40 : idxAfter k = 40
        · rw [if_pos h40]
          have hn : ¬ (k + 0 + 1) % 40 = 0 := by
            intro h; have := (idxAfter_eq_39 k).mpr (by simpa using h); omega
          simp [hn]
        · rw [if_neg h40]
          simp only [Nat.add_zero]
          exact decide_eq_decide.mpr this
      · apply List.map_congr_left
        intro t _
        simp only [Function.comp, Nat.succ_eq_add_one]
        congr 2
        omega

theorem noTimeout_append (xs ys : List Edge) :
    ∀ s, noTimeout s (xs ++ ys) = true →
      noTimeout s xs = true ∧ noTimeout (runIsr s xs).2 ys = true := by
  induction xs with
  | nil => intro s h; exact ⟨rfl, h⟩
  | cons x xs ih =>
    intro s h
    rw [List.cons_append] at h
    simp only [noTimeout, Bool.and_eq_true] at h ⊢
    obtain ⟨h1, h2⟩ := ih _ h.2
    exact ⟨⟨h.1, h1⟩, h2⟩

theorem count_decodes (n : Nat) :
    ((List.range n).map (fun t => decide ((t + 1) % 40 = 0))).count true = n / 40 := by
  induction n with
  | zero => rfl
  | succ n ih =>
    rw [List.range_succ, List.map_append, List.count_append, ih]
    by_cases h : (n + 1) % 40 = 0
    · simp [h]; omega
    · simp [h]; omega

/-! ## The claims, continued -/

/-- C11: an invocation of `processIsr` that comes more than 25 ms after the
start timestamp (in any state, in particular with a bit-index below `40`) takes
the reset branch: the buffer is zeroed, the bit-index set to `0` and the start
timestamp set to the `millis()` read in that branch, before the sample is
shifted in. The decoder is not called. After the call the bit-index is `1`, the
buffer is `(bit, 0, 0, 0, 0)`, and both caches and both flags are as before. -/
theorem processIsr_timeout_reset (s : State) (e : Edge)
    (ht : elapsed e.now s.conversionStartMillis > 25) :
    TN901_FRAME_TIMEOUT = 25 ∧
    isrReset s e = { s with idx := 0, conversionStartMillis := e.nowReset,
                            data := ⟨0, 0, 0, 0, 0⟩ } ∧
    processIsr s e = (none, { s with idx := 1, conversionStartMillis := e.nowReset,
                                     data := ⟨bitValue e.bit, 0, 0, 0, 0⟩ }) ∧
    (processIsr s e).2.idx = 1 ∧
    (processIsr s e).2.data = ⟨bitValue e.bit, 0, 0, 0, 0⟩ ∧
    (processIsr s e).2.conversionStartMillis = e.nowReset ∧
    (processIsr s e).2.tempObject = s.tempObject ∧
    (processIsr s e).2.tempEnvironment = s.tempEnvironment ∧
    (processIsr s e).2.objectUpdated = s.objectUpdated ∧
    (processIsr s e).2.environmentUpdated = s.environmentUpdated := by
  obtain ⟨hr, hp⟩ := processIsr_of_reset s e (Or.inr ht)
  refine ⟨rfl, hr, hp, ?_⟩
  rw [hp]
  exact ⟨rfl, rfl, rfl, rfl, rfl, rfl, rfl⟩

/-- C11 at bit-index `17`, start timestamp `0`, an edge at time `100`. -/
theorem processIsr_timeout_reset_witness :
    midFrameState.idx < 40 ∧
    elapsed 100 midFrameState.conversionStartMillis > 25 ∧
    processIsr midFrameState ⟨100, 101, true⟩ =
      (none, { midFrameState with idx := 1, conversionStartMillis := 101,
                                  data := ⟨1, 0, 0, 0, 0⟩ }) :=
  ⟨by decide, by decide,
   (processIsr_timeout_reset midFrameState ⟨100, 101, true⟩ (by decide)).2.2.1⟩

set_option maxRecDepth 1000000 in
/-- C12, the code at the failing input: `startConversion` succeeds on a state
whose start timestamp is `1000` and leaves that timestamp in place; the forty
edges of a valid Object frame follow, the first at time `1010` and all of them
within 25 ms of the first. The first 32 invocations accumulate without a
reset, the 33rd (at time `1026`, which is 26 ms after the stale timestamp)
takes the reset branch in the middle of the frame, and the 40 invocations end
with bit-index `8`, no decoder call and the Object flag still down. -/
theorem startConversion_stale_timestamp :
    (startConversion unoBoard priorState 7).1 = true ∧
    (startConversion unoBoard priorState 7).2.1.idx = 0 ∧
    (startConversion unoBoard priorState 7).2.1.conversionStartMillis = 1000 ∧
    spreadEdges.map Edge.bit = frameBits 0x4c 0x12 0x34 0x92 0x0d ∧
    spreadEdges.head? = some ⟨1010, 1010, false⟩ ∧
    (∀ ed ∈ spreadEdges, elapsed ed.now 1010 ≤ 25) ∧
    (runIsr (startConversion unoBoard priorState 7).2.1 (spreadEdges.take 32)).2.idx = 32 ∧
    spreadEdges.get? 32 = some ⟨1026, 1026, false⟩ ∧
    (isrReset (runIsr (startConversion unoBoard priorState 7).2.1 (spreadEdges.take 32)).2
      ⟨1026, 1026, false⟩).idx = 0 ∧
    (runIsr (startConversion unoBoard priorState 7).2.1 spreadEdges).1
      = List.replicate 40 none ∧
    (runIsr (startConversion unoBoard priorState 7).2.1 spreadEdges).2.idx = 8 ∧
    (runIsr (startConversion unoBoard priorState 7).2.1 spreadEdges).2.objectUpdated = false := by
  decide

/-- C14: the pin events of `read`, for every mask and every bus, are one write
of `LOW` to the acknowledge pin, then the reads of the data pin for the samples
`0, …, 40 n - 1` of the `n ≥ 1` attempts, then one write of `HIGH` to the
acknowledge pin, and nothing else. So the acknowledge pin is written exactly
twice and its last written level is `HIGH`, whether `read` stops early
(`n < 10`) or after ten attempts. The state and the sample count of `readIo`
are those of `read`. -/
theorem read_acknowledge_trace (s : State) (mask : Nat) (bus : Nat → Bool) :
    (readIo s mask bus).1 = read s mask bus ∧
    (readIo s mask bus).2 =
      [IoEvent.ackWrite false] ++ dataReads 0 (40 * (read s mask bus).attempts) ++
        [IoEvent.ackWrite true] ∧
    1 ≤ (read s mask bus).attempts ∧
    ((read s mask bus).attempts < 10 ∨ (read s mask bus).attempts = 10) ∧
    (read s mask bus).ack = [false, true] ∧
    (read s mask bus).ack.getLast? = some true := by
  obtain ⟨h1, n, h2, h3⟩ := readLoopIo_eq bus (mask &&& (MODE_ET ||| MODE_OT)) 10 0 0 (s, 0)
    [IoEvent.ackWrite false]
  obtain ⟨g1, g2, g3, _⟩ := read_spec s mask bus
  have hs : (read s mask bus).samples = 0 + n := h2
  have hn : n = 40 * (read s mask bus).attempts := by omega
  refine ⟨?_, ?_, g1, by omega, rfl, rfl⟩
  · simp only [readIo, read, h1]
  · simp only [readIo, h3, hn]

/-- C15: in a run of `processIsr` that starts from bit-index `0` with any
buffer contents, whenever an invocation calls the decoder, at least forty
samples have been taken, the buffer the decoder sees is exactly the forty most
recent samples packed most significant bit first (byte `j` holding the samples
`8 j, …, 8 j + 7` of those forty), whatever the buffer held before, and the
decoder's verdict is the one for that frame. Likewise one frame attempt of
`read` leaves exactly the forty samples of that attempt in the buffer, whatever
it held before, and `read` decodes the frames of the bus one by one. -/
theorem decoder_sees_fresh_buffer (s : State) (hidx : s.idx = 0) (pre : List Edge) (e : Edge)
    (r : Nat) (hdec : (processIsr (runIsr s pre).2 e).1 = some r) :
    40 ≤ (pre ++ [e]).length ∧
    (processIsr (runIsr s pre).2 e).2.data
      = packFrame (((pre ++ [e]).map Edge.bit).drop ((pre ++ [e]).length - 40)) ∧
    (r = if ValidFor 0x4c (packFrame (((pre ++ [e]).map Edge.bit).drop ((pre ++ [e]).length - 40)))
          then 0x01
        else if ValidFor 0x66
            (packFrame (((pre ++ [e]).map Edge.bit).drop ((pre ++ [e]).length - 40)))
          then 0x02 else 0x00) ∧
    (∀ (s' : State) (bus : Nat → Bool) (pos : Nat),
      (readFrame bus (s', pos)).1.data
        = packFrame ((List.range 40).map (fun t => bus (pos + t)))) ∧
    (∀ (s' : State) (mask : Nat) (bus : Nat → Bool),
      (read s' mask bus).state = decodeFrames bus s' (read s' mask bus).attempts ∧
      ∀ i, busFrame bus i = packFrame ((List.range 40).map (fun t => bus (40 * i + t)))) := by
  have hfr := fresh_step _ _ e (fresh_run s hidx pre)
  rw [← List.map_singleton (f := Edge.bit), ← List.map_append] at hfr
  obtain ⟨_, hlen, d0, hd⟩ := hfr
  rw [processIsr_fst] at hdec
  have h39 : (isrReset (runIsr s pre).2 e).idx = 39 := by
    by_contra hne
    rw [if_neg hne] at hdec
    exact absurd hdec (by simp)
  have h40 : (processIsr (runIsr s pre).2 e).2.idx = 40 := by rw [processIsr_idx, h39]
  rw [h40, List.length_map] at hlen
  rw [h40, List.length_map] at hd
  have hpk : (processIsr (runIsr s pre).2 e).2.data
      = packFrame (((pre ++ [e]).map Edge.bit).drop ((pre ++ [e]).length - 40)) := by
    rw [hd]
    exact shiftBits_forty d0 _ (by rw [List.length_drop, List.length_map]; omega)
  refine ⟨hlen, hpk, ?_, ?_, ?_⟩
  · rw [if_pos h39] at hdec
    rw [updateTemperature_fst] at hdec
    simp only [hpk] at hdec
    exact (Option.some.inj hdec).symm
  · intro s' bus pos
    rw [readFrame_eq, ← busFrameAt_eq_packFrame]
  · intro s' mask bus
    exact ⟨(read_spec s' mask bus).2.2.2.1, fun i => busFrameAt_eq_packFrame bus (40 * i)⟩

set_option maxRecDepth 1000000 in
/-- C15 on the forty edges of the valid Object frame, starting from a buffer
full of ones: the fortieth invocation decodes the frame
`(0x4c, 0x12, 0x34, 0x92, 0x0d)`. -/
theorem decoder_sees_fresh_buffer_witness :
    (stateWith ⟨0xff, 0xff, 0xff, 0xff, 0xff⟩).idx = 0 ∧
    (processIsr (runIsr (stateWith ⟨0xff, 0xff, 0xff, 0xff, 0xff⟩) (objectEdges.take 39)).2
      ⟨5, 5, true⟩).1 = some 0x01 ∧
    (processIsr (runIsr (stateWith ⟨0xff, 0xff, 0xff, 0xff, 0xff⟩) (objectEdges.take 39)).2
      ⟨5, 5, true⟩).2.data = ⟨0x4c, 0x12, 0x34, 0x92, 0x0d⟩ :=
  have h := decoder_sees_fresh_buffer (stateWith ⟨0xff, 0xff, 0xff, 0xff, 0xff⟩) rfl
    (objectEdges.take 39) ⟨5, 5, true⟩ 0x01 (by decide)
  ⟨rfl, by decide, h.2.1.trans (by decide)⟩

/-- C16: for every state with bit-index `0` and every forty samples, forty
invocations of `processIsr` without a timeout and one attempt of the blocking
reader (the sampling of one frame followed by the decoder) leave the same frame
buffer, the same two cached temperatures and the same two flags, and the
decoder returns the same mask in both. -/
theorem blocking_and_isr_agree (s : State) (edges : List Edge) (bus : Nat → Bool) (pos : Nat)
    (hidx : s.idx = 0) (hlen : edges.length = 40)
    (htime : ∀ ed ∈ edges, elapsed ed.now s.conversionStartMillis ≤ 25)
    (hbits : (List.range 40).map (fun t => bus (pos + t)) = edges.map Edge.bit) :
    (runIsr s edges).2.data = (updateTemperature (readFrame bus (s, pos)).1).2.data ∧
    (runIsr s edges).2.tempObject = (updateTemperature (readFrame bus (s, pos)).1).2.tempObject ∧
    (runIsr s edges).2.tempEnvironment
      = (updateTemperature (readFrame bus (s, pos)).1).2.tempEnvironment ∧
    (runIsr s edges).2.objectUpdated
      = (updateTemperature (readFrame bus (s, pos)).1).2.objectUpdated ∧
    (runIsr s edges).2.environmentUpdated
      = (updateTemperature (readFrame bus (s, pos)).1).2.environmentUpdated ∧
    (runIsr s edges).1.getLast? = some (some (updateTemperature (readFrame bus (s, pos)).1).1) := by
  have hne : edges ≠ [] := by
    intro h0; rw [h0] at hlen; exact absurd hlen (by decide)
  have hrun := runIsr_to_forty edges s hne (by rw [hidx, hlen]) htime
  have hdata : shiftBits s.data s.idx (edges.map Edge.bit) = busFrameAt bus pos := by
    rw [hidx, shiftBits_forty _ _ (by rw [List.length_map, hlen]), busFrameAt_eq_packFrame, hbits]
  rw [hrun, hdata, readFrame_eq]
  have ho := updateTemperature_idx_irrelevant { s with data := busFrameAt bus pos } 40 .object
  have he := updateTemperature_idx_irrelevant { s with data := busFrameAt bus pos } 40
    .environment
  refine ⟨ho.2.1, ho.2.2.1, he.2.2.1, ho.2.2.2, he.2.2.2, ?_⟩
  rw [List.getLast?_append, ho.1]
  rfl

set_option maxRecDepth 1000000 in
/-- C16 on the valid Object frame: the forty edges of `objectEdges` and the
first frame of `objectOnlyBus`. -/
theorem blocking_and_isr_agree_witness :
    (stateWith ⟨0xff, 0xff, 0xff, 0xff, 0xff⟩).idx = 0 ∧ objectEdges.length = 40 ∧
    (∀ ed ∈ objectEdges,
      elapsed ed.now (stateWith ⟨0xff, 0xff, 0xff, 0xff, 0xff⟩).conversionStartMillis ≤ 25) ∧
    (List.range 40).map (fun t => objectOnlyBus (0 + t)) = objectEdges.map Edge.bit ∧
    (runIsr (stateWith ⟨0xff, 0xff, 0xff, 0xff, 0xff⟩) objectEdges).2.data
      = (updateTemperature
          (readFrame objectOnlyBus (stateWith ⟨0xff, 0xff, 0xff, 0xff, 0xff⟩, 0)).1).2.data :=
  have h := blocking_and_isr_agree (stateWith ⟨0xff, 0xff, 0xff, 0xff, 0xff⟩) objectEdges
    objectOnlyBus 0 rfl (by decide) (by decide) (by decide)
  ⟨rfl, by decide, by decide, by decide, h.1⟩

/-- C17: in a run of `n` invocations of `processIsr` that starts from
bit-index `0` and in which no timeout elapses, the decoder is called in
invocation `i` (counted from 1) exactly if `40` divides `i`, so `n / 40` times
in all. For every `m ≥ 1`, invocation `40 m + 1` finds the bit-index `40`,
takes the reset branch (buffer zeroed, bit-index `0`, start timestamp set to
the current time) and then shifts its sample in, ending with bit-index `1` and
the buffer `(bit, 0, 0, 0, 0)`, without a decoder call. -/
theorem back_to_back_frames (s : State) (edges : List Edge) (hidx : s.idx = 0)
    (hnt : noTimeout s edges = true) :
    (runIsr s edges).1.map Option.isSome
      = (List.range edges.length).map (fun t => decide ((t + 1) % 40 = 0)) ∧
    ((runIsr s edges).1.map Option.isSome).count true = edges.length / 40 ∧
    (∀ (pre : List Edge) (e : Edge) (post : List Edge) (m : Nat),
      edges = pre ++ e :: post → 1 ≤ m → pre.length = 40 * m →
        (runIsr s pre).2.idx = 40 ∧
        isrReset (runIsr s pre).2 e =
          { (runIsr s pre).2 with idx := 0, conversionStartMillis := e.nowReset,
                                  data := ⟨0, 0, 0, 0, 0⟩ } ∧
        processIsr (runIsr s pre).2 e =
          (none, { (runIsr s pre).2 with idx := 1, conversionStartMillis := e.nowReset,
                                         data := ⟨bitValue e.bit, 0, 0, 0, 0⟩ })) := by
  have h0 : s.idx = idxAfter 0 := by rw [hidx]; rfl
  obtain ⟨_, h2⟩ := runIsr_idx_trace edges s 0 h0 hnt
  simp only [Nat.zero_add] at h2
  refine ⟨h2, by rw [h2, count_decodes], ?_⟩
  intro pre e post m hsplit hm hlen
  rw [hsplit] at hnt
  obtain ⟨hpre, _⟩ := noTimeout_append pre (e :: post) s hnt
  obtain ⟨hi, _⟩ := runIsr_idx_trace pre s 0 h0 hpre
  have h40 : (runIsr s pre).2.idx = 40 := by
    rw [hi, hlen]; unfold idxAfter; split_ifs <;> omega
  have hres := processIsr_of_reset (runIsr s pre).2 e (Or.inl (by omega))
  exact ⟨h40, hres.1, hres.2⟩

set_option maxRecDepth 1000000 in
/-- C17 on eighty edges carrying a valid Object frame and a valid Environment
frame: two decoder calls, in the invocations 40 and 80, returning `MODE_OT`
and `MODE_ET`. -/
theorem back_to_back_frames_witness :
    (stateWith ⟨0xff, 0xff, 0xff, 0xff, 0xff⟩).idx = 0 ∧
    noTimeout (stateWith ⟨0xff, 0xff, 0xff, 0xff, 0xff⟩) twoFrameEdges = true ∧
    ((runIsr (stateWith ⟨0xff, 0xff, 0xff, 0xff, 0xff⟩) twoFrameEdges).1.map
      Option.isSome).count true = 2 ∧
    (runIsr (stateWith ⟨0xff, 0xff, 0xff, 0xff, 0xff⟩) twoFrameEdges).1
      = List.replicate 39 none ++ [some 0x01] ++ List.replicate 39 none ++ [some 0x02] :=
  have h := back_to_back_frames (stateWith ⟨0xff, 0xff, 0xff, 0xff, 0xff⟩) twoFrameEdges rfl
    (by decide)
  ⟨rfl, by decide, h.2.1.trans (by decide), by decide⟩

/-- C18: in a state with bit-index `n < 40`, an invocation of `processIsr` that
comes at most 25 ms after the start timestamp (exactly 25 ms included) does not
take the reset branch: it leaves the start timestamp and the four bytes other
than byte `n / 8` as they were, replaces byte `n / 8` by
`((old * 2) mod 256) + bit` and sets the bit-index to `n + 1`; the decoder is
called in this invocation if and only if `n = 39`. -/
theorem processIsr_no_reset_step (s : State) (e : Edge) (hidx : s.idx < 40)
    (ht : elapsed e.now s.conversionStartMillis ≤ 25) :
    isrReset s e = s ∧
    (processIsr s e).2.conversionStartMillis = s.conversionStartMillis ∧
    (processIsr s e).2.data.get (s.idx / 8)
      = (s.data.get (s.idx / 8) * 2) % 256 + bitValue e.bit ∧
    (∀ j, j ≠ s.idx / 8 → (processIsr s e).2.data.get j = s.data.get j) ∧
    (processIsr s e).2.idx = s.idx + 1 ∧
    ((processIsr s e).1.isSome = true ↔ s.idx = 39) := by
  have hr : isrReset s e = s := isrReset_of_no_reset s e hidx ht
  have hj : s.idx / 8 < 5 := by omega
  have hsh : shiftIn (s.data.get (s.idx / 8)) e.bit
      = (s.data.get (s.idx / 8) * 2) % 256 + bitValue e.bit := by
    rw [shiftIn_eq, bitValue]
    cases e.bit <;> simp <;> omega
  refine ⟨hr, ?_, ?_, ?_, ?_, ?_⟩
  · rw [processIsr_eq_isrReset, hr]
    split_ifs
    · exact (updateTemperature_frame _).2.2
    · rfl
  · rw [processIsr_data, hr, Frame.get_set _ _ _ hj, hsh]
  · intro j hne
    rw [processIsr_data, hr]
    exact Frame.get_set_ne _ _ _ _ hne
  · rw [processIsr_idx, hr]
  · rw [processIsr_isSome, hr]
    simp

/-- C18 at bit-index `17` with byte 2 holding `0x01`, an edge at time `25`
after the start timestamp `0`, sample `HIGH`: byte 2 becomes `0x03`. -/
theorem processIsr_no_reset_step_witness :
    midFrameState.idx < 40 ∧ elapsed 25 midFrameState.conversionStartMillis ≤ 25 ∧
    (processIsr midFrameState ⟨25, 25, true⟩).2.data.get 2 = 0x03 ∧
    (processIsr midFrameState ⟨25, 25, true⟩).2.idx = 18 :=
  have h := processIsr_no_reset_step midFrameState ⟨25, 25, true⟩ (by decide) (by decide)
  ⟨by decide, by decide, h.2.2.1, h.2.2.2.2.1⟩

/-- C19: for every state, whatever its bit-index and timestamps, the bit-index
at the point where `processIsr` shifts the sample in is in `0..39`, so the byte
position `idx / 8` is in `0..4` and the write to `_data[idx / 8]` goes to a cell
of the buffer (reading that cell back gives the written value); the bit-index
after the call is one more, in `1..40`. -/
theorem processIsr_index_in_range (s : State) (e : Edge) :
    (isrReset s e).idx ≤ 39 ∧ (isrReset s e).idx / 8 ≤ 4 ∧
    1 ≤ (processIsr s e).2.idx ∧ (processIsr s e).2.idx ≤ 40 ∧
    (processIsr s e).2.idx = (isrReset s e).idx + 1 ∧
    (processIsr s e).2.data = (isrReset s e).data.set ((isrReset s e).idx / 8)
      (shiftIn ((isrReset s e).data.get ((isrReset s e).idx / 8)) e.bit) ∧
    (processIsr s e).2.data.get ((isrReset s e).idx / 8)
      = shiftIn ((isrReset s e).data.get ((isrReset s e).idx / 8)) e.bit := by
  have h := isrReset_idx_lt s e
  have hj : (isrReset s e).idx / 8 < 5 := by omega
  have hi := processIsr_idx s e
  refine ⟨by omega, by omega, by omega, by omega, hi, processIsr_data s e, ?_⟩
  rw [processIsr_data, Frame.get_set _ _ _ hj]

/-- C20: when no channel bit is left after masking (`mask & 0x03 = 0`), `read`
still makes exactly one attempt: it takes forty samples and runs the decoder on
that frame, so a valid frame updates the cache and the flag of its channel. For
every mask, `read` makes at least 1 and at most 10 attempts, and `read(mask)`
gives the same result as `read(mask & 0x03)`. -/
theorem read_empty_request (s : State) (mask : Nat) (bus : Nat → Bool) :
    (mask &&& 0x03 = 0 →
      (read s mask bus).attempts = 1 ∧ (read s mask bus).samples = 40 ∧
      (read s mask bus).state = (updateTemperature { s with data := busFrame bus 0 }).2 ∧
      ∀ c : Channel, ValidFor c.addr (busFrame bus 0) →
        (read s mask bus).state.updated c = true ∧
        (read s mask bus).state.temp c = decodeTemperature (busFrame bus 0)) ∧
    1 ≤ (read s mask bus).attempts ∧ (read s mask bus).attempts ≤ 10 ∧
    read s mask bus = read s (mask &&& 0x03) bus := by
  obtain ⟨h1, h2, h3, h4, h5, h6⟩ := read_spec s mask bus
  refine ⟨?_, h1, h2, ?_⟩
  · intro hm
    have hsat : Satisfied bus mask 1 := by
      have e1 : mask &&& 0x01 = 0 := by
        have : mask &&& 0x03 &&& 0x01 = mask &&& 0x01 := by rw [Nat.land_assoc]; rfl
        rw [← this, hm]; rfl
      have e2 : mask &&& 0x02 = 0 := by
        have : mask &&& 0x03 &&& 0x02 = mask &&& 0x02 := by rw [Nat.land_assoc]; rfl
        rw [← this, hm]; rfl
      exact ⟨fun h => absurd e1 h, fun h => absurd e2 h⟩
    have hn : (read s mask bus).attempts = 1 := by
      by_contra hne
      exact h6 1 (by decide) (by omega) hsat
    refine ⟨hn, by rw [h3, hn], by rw [h4, hn]; rfl, ?_⟩
    intro c hv
    rw [h4, hn]
    constructor
    · simp [decodeFrames, decodeFrame_updated, hv]
    · simp [decodeFrames, decodeFrame_temp, hv]
  · have : mask &&& 0x03 &&& (MODE_ET ||| MODE_OT) = mask &&& (MODE_ET ||| MODE_OT) := by
      rw [Nat.land_assoc]; rfl
    simp only [read, this]

set_option maxRecDepth 100000 in
/-- C20 with the mask `0x04` on a bus of valid Object frames: one attempt, and
the Object flag goes up. -/
theorem read_empty_request_witness :
    (0x04 &&& 0x03 = 0) ∧ ValidFor Channel.object.addr (busFrame objectOnlyBus 0) ∧
    (read (stateWith ⟨0, 0, 0, 0, 0⟩) 0x04 objectOnlyBus).attempts = 1 ∧
    (read (stateWith ⟨0, 0, 0, 0, 0⟩) 0x04 objectOnlyBus).state.updated .object = true :=
  have h := (read_empty_request (stateWith ⟨0, 0, 0, 0, 0⟩) 0x04 objectOnlyBus).1 (by decide)
  ⟨by decide, by decide, h.1, (h.2.2.2 .object (by decide)).1⟩

end TN901
